import Mathlib

/-!
Verification of the layered pixel-art engine (pixel.py, layer.py, canvas.py).

The embedding is shallow and value-based:
* machine `int`s become `Int` (channel values, indices) or `Nat` (sizes, counts);
* Python `float` division followed by `round` is modelled by exact rational
  division followed by round-half-to-even (`pyRound`), which is Python's
  documented rounding rule on exact values;
* a `Pixel` is its `rgb` field, `Option (Int × Int × Int)` (`none` = transparent);
* a `Layer`'s pixel grid is a list of columns, each a list of rows, exactly as
  `_pixels` in the source; `Layer.id` models Python object identity (the default
  `==` on `Layer` instances), which the canvas invariants and `list.index` use;
* text files are lists of newline-free lines (`List (List Char)`); the Python
  string primitives used by the serializer (`str.strip`, `str.split`,
  `str.join`, `int(...)`, `str(int)`) are modelled character by character.
-/

namespace PixelArt

/-! ### pixel.py -/

/-- An RGB triple, the payload of a non-transparent pixel. -/
abbrev RGB := Int × Int × Int

/-- `is_valid_rgb_colour` from pixel.py: each channel an integer in [0, 255].
(The `isinstance`/arity checks are carried by the type.) -/
def is_valid_rgb_colour (rgb : RGB) : Bool :=
  decide (0 ≤ rgb.1) && decide (rgb.1 ≤ 255) &&
  decide (0 ≤ rgb.2.1) && decide (rgb.2.1 ≤ 255) &&
  decide (0 ≤ rgb.2.2) && decide (rgb.2.2 ≤ 255)

/-- A `Pixel` is its `rgb` attribute: `none` models a transparent pixel. -/
abbrev Pixel := Option RGB

/-- `Pixel.is_transparent` from pixel.py: true iff `rgb is None`. -/
def Pixel.is_transparent (p : Pixel) : Bool := p.isNone

/-- One lowercase hexadecimal digit, as produced by Python's `hex`. -/
def hexDigitChar (n : Nat) : Char :=
  if n < 10 then Char.ofNat (48 + n) else Char.ofNat (87 + n)

/-- Two-digit zero-padded lowercase hex, modelling `f"{hex(c)[2:]:0>2}"` for a
channel value `c` (faithful under the source precondition `is_valid_rgb_colour`). -/
def hexPad2 (n : Nat) : List Char :=
  [hexDigitChar (n / 16), hexDigitChar (n % 16)]

/-- `convert_to_hex_rgb` from pixel.py: `"#rrggbb"` in lowercase hex
(faithful under the source precondition `is_valid_rgb_colour rgb`). -/
def convert_to_hex_rgb (rgb : RGB) : List Char :=
  '#' :: (hexPad2 rgb.1.toNat ++ hexPad2 rgb.2.1.toNat ++ hexPad2 rgb.2.2.toNat)

/-! ### Python runtime primitives used by layer.py/canvas.py -/

/-- Python's `round` on an exact rational value: round to the nearest integer,
ties going to the even integer (banker's rounding). -/
def pyRound (q : ℚ) : Int :=
  let f := ⌊q⌋
  if q - f < 1/2 then f
  else if (1:ℚ)/2 < q - f then f + 1
  else if f % 2 = 0 then f else f + 1

/-- The whitespace characters stripped by Python's `str.strip()`. -/
def isPySpace (c : Char) : Bool :=
  c.toNat = 32 || c.toNat = 9 || c.toNat = 10 || c.toNat = 13 ||
  c.toNat = 11 || c.toNat = 12

/-- Python `str.strip()` with no argument: drop whitespace at both ends. -/
def pyStrip (s : List Char) : List Char :=
  ((s.dropWhile isPySpace).reverse.dropWhile isPySpace).reverse

/-- Python `str.lstrip(c)` for a single character `c`. -/
def pyLStrip (c : Char) (s : List Char) : List Char :=
  s.dropWhile (fun d => d = c)

/-- Python `str.rstrip(c)` for a single character `c`. -/
def pyRStrip (c : Char) (s : List Char) : List Char :=
  (s.reverse.dropWhile (fun d => d = c)).reverse

/-- Python `str.split(sep)` for a single-character separator:
`"".split(sep) = [""]`, and separators delimit (possibly empty) chunks. -/
def pySplit (sep : Char) : List Char → List (List Char)
  | [] => [[]]
  | c :: cs =>
    if c = sep then [] :: pySplit sep cs
    else
      match pySplit sep cs with
      | [] => [[c]]
      | t :: ts => (c :: t) :: ts

/-- Python `sep.join(tokens)` for a single-character separator. -/
def pyJoin (sep : Char) : List (List Char) → List Char
  | [] => []
  | [t] => t
  | t :: t2 :: ts => t ++ sep :: pyJoin sep (t2 :: ts)

/-- The decimal digit character for `d < 10`. -/
def digitChar (d : Nat) : Char := Char.ofNat (48 + d)

/-- Whether a character is a decimal digit. -/
def isDigitChar (c : Char) : Bool := 48 ≤ c.toNat && c.toNat ≤ 57

/-- The decimal numeral of a natural number, as printed by Python's `str`. -/
def natDigits (n : Nat) : List Char :=
  if _h : n < 10 then [digitChar n]
  else natDigits (n / 10) ++ [digitChar (n % 10)]
termination_by n
decreasing_by exact Nat.div_lt_self (by omega) (by omega)

/-- Python `str(n)` for an `int` `n`: a minus sign followed by the decimal
numeral of the magnitude, or just the numeral. -/
def intRepr (n : Int) : List Char :=
  if n < 0 then '-' :: natDigits (-n).toNat else natDigits n.toNat

/-- The value of a string of decimal digits. -/
def parseDigits (s : List Char) : Nat :=
  s.foldl (fun a c => 10 * a + (c.toNat - 48)) 0

/-- Parse a nonempty all-digit string; `none` models a `ValueError`. -/
def parseUnsigned (ds : List Char) : Option Nat :=
  if ds.isEmpty then none
  else if ds.all isDigitChar then some (parseDigits ds) else none

/-- Python `int(s)` on the strings arising here: strip whitespace, then an
optional sign followed by a nonempty run of decimal digits; `none` models a
`ValueError`. -/
def pyInt (s : List Char) : Option Int :=
  match pyStrip s with
  | [] => none
  | c :: cs =>
    if c = '-' then (parseUnsigned cs).map (fun n => -(n : Int))
    else if c = '+' then (parseUnsigned cs).map (fun n => (n : Int))
    else (parseUnsigned (c :: cs)).map (fun n => (n : Int))

/-! ### layer.py -/

/-- The loop body of `average_pixels`: accumulate `(r_sum, g_sum, b_sum, count)`
over one pixel, skipping transparent pixels. -/
def avgStep (s : Int × Int × Int × Int) (p : Pixel) : Int × Int × Int × Int :=
  match p with
  | some (r, g, b) => (s.1 + r, s.2.1 + g, s.2.2.1 + b, s.2.2.2 + 1)
  | none => s

/-- `average_pixels` from layer.py: sum each channel over the non-transparent
pixels, divide by their count and round; all-transparent input gives a
transparent pixel. -/
def average_pixels (pixels : List Pixel) : Pixel :=
  let s := pixels.foldl avgStep (0, 0, 0, 0)
  if s.2.2.2 = 0 then none
  else
    some (pyRound ((s.1 : ℚ) / (s.2.2.2 : ℚ)),
          pyRound ((s.2.1 : ℚ) / (s.2.2.2 : ℚ)),
          pyRound ((s.2.2.1 : ℚ) / (s.2.2.2 : ℚ)))

/-- A `Layer` from layer.py.  `pixels` is the `_pixels` grid: a list of
`size.1` columns, each a list of `size.2` pixels, indexed `pixels[col][row]`.
`id` models Python object identity (`Layer` defines no `__eq__`, so list
membership, `list.index` and the canvas no-duplicates invariant compare
objects by identity); each layer ever constructed gets a fresh `id`. -/
structure Layer where
  id : Nat
  name : String
  visible : Bool
  size : Nat × Nat
  pixels : List (List Pixel)
deriving DecidableEq

/-- `Layer.__init__`: a `size.1 × size.2` grid of pixels all holding `bg`
(transparent when `bg` is omitted), initially visible.  The two nested
append loops fill the grid column by column.  `oid` is the identity of the
freshly allocated object.  No argument validation is performed. -/
def Layer.init (oid : Nat) (size : Nat × Nat) (bg : Pixel) (name : String) : Layer :=
  { id := oid, name := name, visible := true, size := size,
    pixels := (List.range size.1).map fun _ => (List.range size.2).map fun _ => bg }

/-- `Layer.get_pixel`: the pixel at `(col, row)`.  Out-of-range access is an
`IndexError` in Python (a precondition violation); the model returns a
transparent default there. -/
def Layer.get_pixel (l : Layer) (loc : Nat × Nat) : Pixel :=
  (l.pixels.getD loc.1 []).getD loc.2 none

/-- `Layer.get_hex_rgb`: hex string of the pixel at `loc`, or `None` if
transparent. -/
def Layer.get_hex_rgb (l : Layer) (loc : Nat × Nat) : Option (List Char) :=
  match l.get_pixel loc with
  | none => none
  | some rgb => some (convert_to_hex_rgb rgb)

/-- `Layer.upscale`: a fresh layer (identity `oid`) of doubled size with the
same name and visibility.  The loop writes the colour of source pixel
`(x, y)` into the four destination cells `(2x, 2y)`, `(2x+1, 2y)`,
`(2x, 2y+1)`, `(2x+1, 2y+1)`; equivalently, destination cell `(i, j)`
receives the colour of source cell `(i / 2, j / 2)`. -/
def Layer.upscale (l : Layer) (oid : Nat) : Layer :=
  { id := oid, name := l.name, visible := l.visible,
    size := (l.size.1 * 2, l.size.2 * 2),
    pixels := (List.range (l.size.1 * 2)).map fun i =>
      (List.range (l.size.2 * 2)).map fun j => l.get_pixel (i / 2, j / 2) }

/-- `Layer.downscale`: a fresh layer (identity `oid`) of halved size with the
same name and visibility; destination cell `(x, y)` is written the
`average_pixels` of the 2×2 source block it replaces, in the source's order. -/
def Layer.downscale (l : Layer) (oid : Nat) : Layer :=
  { id := oid, name := l.name, visible := l.visible,
    size := (l.size.1 / 2, l.size.2 / 2),
    pixels := (List.range (l.size.1 / 2)).map fun x =>
      (List.range (l.size.2 / 2)).map fun y =>
        average_pixels [l.get_pixel (2 * x, 2 * y), l.get_pixel (2 * x + 1, 2 * y),
                        l.get_pixel (2 * x, 2 * y + 1), l.get_pixel (2 * x + 1, 2 * y + 1)] }

/-- The pixel token written by `Canvas._write_layer`: the literal `None` for a
transparent pixel, else `f'({r}, {g}, {b})'`. -/
def pixelToken (p : Pixel) : List Char :=
  match p with
  | none => "None".data
  | some (r, g, b) =>
    '(' :: (intRepr r ++ ',' :: ' ' :: intRepr g ++ ',' :: ' ' :: intRepr b ++ [')'])

/-- Python `f.readline()` on a file modelled as a list of remaining lines:
returns the next line and the rest; at end of file it returns the empty
string and leaves the file exhausted. -/
def pyReadline (lines : List (List Char)) : List Char × List (List Char) :=
  match lines with
  | [] => ([], [])
  | x :: xs => (x, xs)

/-- The pixel-token branch of `Layer.read_layer`: the literal `None` gives a
transparent pixel; otherwise strip the outer parentheses, split on commas and
convert the first three parts with `int`.  `none` models the `ValueError` /
`IndexError` raised on an unparsable token. -/
def readPixelToken (tok : List Char) : Option Pixel :=
  if tok = "None".data then some none
  else
    match pySplit ',' (pyRStrip ')' (pyLStrip '(' tok)) with
    | p0 :: p1 :: p2 :: _ => do
      let r ← pyInt p0
      let g ← pyInt p1
      let b ← pyInt p2
      some (some (r, g, b))
    | _ => none

/-- Write pixel `v` into column `col`, row `row` of a grid
(`self._pixels[col][row].rgb = rgb`). -/
def setPix (g : List (List Pixel)) (col row : Nat) (v : Pixel) : List (List Pixel) :=
  g.set col ((g.getD col []).set row v)

/-- The inner loop of `Layer.read_layer` over the tokens of one row: parse
each token and store it at the next column.  `none` models the exception
raised on an unparsable token or when the tokens outnumber the `width`
columns (`IndexError` on `self._pixels[col]`). -/
def setRowPixels (width row : Nat) : List (List Char) → Nat → List (List Pixel) →
    Option (List (List Pixel))
  | [], _, g => some g
  | t :: ts, col, g =>
    match readPixelToken t with
    | none => none
    | some p =>
      if col < width then setRowPixels width row ts (col + 1) (setPix g col row p)
      else none

/-- The row loop of `Layer.read_layer`: read `remaining` lines starting at row
index `row`, splitting each stripped line on `|` and storing its tokens. -/
def readRows (width : Nat) : Nat → Nat → List (List Pixel) → List (List Char) →
    Option (List (List Pixel) × List (List Char))
  | _, 0, g, lines => some (g, lines)
  | row, n + 1, g, lines =>
    let r := pyReadline lines
    match setRowPixels width row (pySplit '|' (pyStrip r.1)) 0 g with
    | none => none
    | some g' => readRows width (row + 1) n g' r.2

/-- `Layer.read_layer` from layer.py: read the visibility line (`visible` is
true exactly when the stripped line is the literal `True`), then `size.2`
rows of pixel data into the grid.  Returns the updated layer and the
remaining lines, or `none` when a row is unparsable. -/
def Layer.read_layer (l : Layer) (lines : List (List Char)) :
    Option (Layer × List (List Char)) :=
  let r := pyReadline lines
  let vis := pyStrip r.1 = "True".data
  match readRows l.size.1 0 l.size.2 l.pixels r.2 with
  | none => none
  | some gr => some ({ l with visible := vis, pixels := gr.1 }, gr.2)

/-! ### canvas.py -/

/-- A `Canvas` from canvas.py: an ordered stack of layers (index 0 topmost),
one shared size, and the active-layer index (`-1` when there are no layers). -/
structure Canvas where
  size : Nat × Nat
  active_layer_index : Int
  layers : List Layer
deriving DecidableEq

/-- `Canvas.__init__`: the given size, no layers, active index `-1`. -/
def Canvas.init (size : Nat × Nat) : Canvas :=
  { size := size, active_layer_index := -1, layers := [] }

/-- `Canvas.add_layer`: append `layer` at the bottom; a previously empty
canvas makes it active (index 0). -/
def Canvas.add_layer (c : Canvas) (l : Layer) : Canvas :=
  { c with layers := c.layers ++ [l],
           active_layer_index :=
             if c.active_layer_index = -1 then 0 else c.active_layer_index }

/-- `Canvas.get_num_layers`. -/
def Canvas.get_num_layers (c : Canvas) : Nat := c.layers.length

/-- `Canvas.get_layers`: a shallow copy of the layer list. -/
def Canvas.get_layers (c : Canvas) : List Layer := c.layers

/-- `list.index(layer)` on a layer list: index of the first element equal to
`layer`, where Python `==` on `Layer` objects is identity, modelled by `id`.
Absence is a `ValueError` (a precondition violation); the model then returns
the length. -/
def indexOfLayer : List Layer → Layer → Nat
  | [], _ => 0
  | x :: xs, l => if x.id = l.id then 0 else indexOfLayer xs l + 1

/-- `Canvas.set_active_layer_index`. -/
def Canvas.set_active_layer_index (c : Canvas) (k : Int) : Canvas :=
  { c with active_layer_index := k }

/-- `Canvas.change_active_layer`: point the active index at the given layer. -/
def Canvas.change_active_layer (c : Canvas) (l : Layer) : Canvas :=
  { c with active_layer_index := (indexOfLayer c.layers l : Int) }

/-- The scan of `Canvas.get_hex_rgb`: walk the layers top to bottom and return
the hex colour of the first visible layer whose pixel at `loc` is
non-transparent. -/
def getHexRgbScan (loc : Nat × Nat) : List Layer → Option (List Char)
  | [] => none
  | l :: ls =>
    if l.visible then
      match l.get_pixel loc with
      | some rgb => some (convert_to_hex_rgb rgb)
      | none => getHexRgbScan loc ls
    else getHexRgbScan loc ls

/-- `Canvas.get_hex_rgb` from canvas.py. -/
def Canvas.get_hex_rgb (c : Canvas) (loc : Nat × Nat) : Option (List Char) :=
  getHexRgbScan loc c.layers

/-- The scan of `_canvas_to_png_helper`: the first visible non-transparent
colour at `(i, j)`, extended with full opacity. -/
def canvasToPngScan (loc : Nat × Nat) : List Layer → Option (Int × Int × Int × Int)
  | [] => none
  | l :: ls =>
    if l.visible then
      match l.get_pixel loc with
      | some rgb => some (rgb.1, rgb.2.1, rgb.2.2, 255)
      | none => canvasToPngScan loc ls
    else canvasToPngScan loc ls

/-- `_canvas_to_png_helper` from canvas.py: the topmost visible RGBA value at
`(i, j)`, scanning `canvas.get_layers()`. -/
def canvas_to_png_helper (c : Canvas) (i j : Nat) : Option (Int × Int × Int × Int) :=
  canvasToPngScan (i, j) c.get_layers

/-- `Canvas.remove_layer`: drop the first occurrence of `layer` and adjust the
active index exactly as the source does. -/
def Canvas.remove_layer (c : Canvas) (l : Layer) : Canvas :=
  let index : Nat := indexOfLayer c.layers l
  let layers' := c.layers.eraseIdx index
  let a := c.active_layer_index
  let a' : Int :=
    if a = (index : Int) then
      if a ≥ (layers'.length : Int) then (layers'.length : Int) - 1 else a
    else if a > (index : Int) then a - 1
    else a
  { c with layers := layers', active_layer_index := a' }

/-- `Canvas.move_layer`: move `layer` from its index `org` to
`max 0 (min (org - i) (count - 1))` by a pop followed by an insert, then
shift the active index so it still denotes the previously active layer. -/
def Canvas.move_layer (c : Canvas) (l : Layer) (i : Int) : Canvas :=
  let org : Nat := indexOfLayer c.layers l
  let newIdx : Int := max 0 (min ((org : Int) - i) ((c.layers.length : Int) - 1))
  let layers' := (c.layers.eraseIdx org).insertIdx newIdx.toNat l
  let a := c.active_layer_index
  let a' : Int :=
    if a = (org : Int) then newIdx
    else if (org : Int) < a ∧ a ≤ newIdx then a - 1
    else if newIdx ≤ a ∧ a < (org : Int) then a + 1
    else a
  { c with layers := layers', active_layer_index := a' }

/-- `Canvas.upscale`: replace every layer by its upscaled copy and double the
canvas size in one step.  `fresh` supplies the identities of the newly
allocated layers (`fresh + k` for the `k`-th). -/
def Canvas.upscale (c : Canvas) (fresh : Nat) : Canvas :=
  { size := (c.size.1 * 2, c.size.2 * 2),
    active_layer_index := c.active_layer_index,
    layers := c.layers.enum.map fun kl => kl.2.upscale (fresh + kl.1) }

/-- `Canvas.downscale`: replace every layer by its downscaled copy and halve
the canvas size in one step.  `fresh` supplies the new layer identities. -/
def Canvas.downscale (c : Canvas) (fresh : Nat) : Canvas :=
  { size := (c.size.1 / 2, c.size.2 / 2),
    active_layer_index := c.active_layer_index,
    layers := c.layers.enum.map fun kl => kl.2.downscale (fresh + kl.1) }

/-- `str(bool)`: the literal `True` or `False`. -/
def boolRepr (b : Bool) : List Char :=
  if b then "True".data else "False".data

/-- `Canvas._write_layer`: the visibility line followed by `size.2` rows, each
the `|`-join of the pixel tokens of that row (`None` or `(r, g, b)`). -/
def Canvas.write_layer (c : Canvas) (l : Layer) : List (List Char) :=
  boolRepr l.visible ::
    (List.range c.size.2).map fun y =>
      pyJoin '|' ((List.range c.size.1).map fun x => pixelToken (l.get_pixel (x, y)))

/-- `Canvas.save` to the `.canvas` format: the header line
`"{width}, {height}, {layer_count}"` followed by each layer top to bottom. -/
def Canvas.save (c : Canvas) : List (List Char) :=
  (intRepr (c.size.1 : Int) ++ ',' :: ' ' :: intRepr (c.size.2 : Int) ++
     ',' :: ' ' :: intRepr (c.layers.length : Int)) ::
  (c.layers.map c.write_layer).flatten

/-- The layer loop of `load_canvas`: `n` times, construct a blank layer of the
canvas size, fill it with `read_layer` and `add_layer` it.  The `k`-th loaded
layer gets identity `fresh + k`. -/
def loadLayersLoop (size : Nat × Nat) (fresh : Nat) :
    Nat → Canvas → List (List Char) → Option (Canvas × List (List Char))
  | 0, c, lines => some (c, lines)
  | n + 1, c, lines =>
    let l0 := Layer.init (fresh + c.layers.length) size none "Layer"
    match l0.read_layer lines with
    | none => none
    | some lr => loadLayersLoop size fresh n (c.add_layer lr.1) lr.2

/-- `load_canvas` from canvas.py: parse the 3-field header, read each layer in
turn, then reset the active index to 0.  `none` models the exception raised on
a malformed file.  (A negative header value makes the constructor loops empty
in Python; the model's `Int.toNat` matches that for the grids built here.) -/
def load_canvas (fresh : Nat) (lines : List (List Char)) : Option Canvas :=
  let r := pyReadline lines
  match pySplit ',' (pyStrip r.1) with
  | [ws, hs, ns] => do
    let w ← pyInt ws
    let h ← pyInt hs
    let n ← pyInt ns
    let size := (w.toNat, h.toNat)
    let cl ← loadLayersLoop size fresh n.toNat (Canvas.init size) r.2
    some { cl.1 with active_layer_index := 0 }
  | _ => none

/-! ### General lemmas -/

theorem pyRound_intCast (n : Int) : pyRound (n : ℚ) = n := by
  simp only [pyRound, Int.floor_intCast, sub_self]
  norm_num

/-- Python rounds an exact half to the even neighbour. -/
theorem pyRound_add_half (n : Int) :
    pyRound ((n : ℚ) + 1/2) = if n % 2 = 0 then n else n + 1 := by
  have hf : ⌊(n : ℚ) + 1/2⌋ = n := by
    rw [Int.floor_eq_iff]
    constructor <;> norm_num
  have hsub : (n : ℚ) + 1/2 - (⌊(n : ℚ) + 1/2⌋ : Int) = 1/2 := by rw [hf]; ring
  simp only [pyRound, hsub, hf]
  norm_num

/-- The running sums of `average_pixels` equal the channel sums and the count
over the non-transparent pixels. -/
theorem foldl_avgStep (ps : List Pixel) (s : Int × Int × Int × Int) :
    ps.foldl avgStep s =
      (s.1 + (((ps.filterMap id).map fun v => v.1).sum),
       s.2.1 + (((ps.filterMap id).map fun v => v.2.1).sum),
       s.2.2.1 + (((ps.filterMap id).map fun v => v.2.2).sum),
       s.2.2.2 + ((ps.filterMap id).length : Int)) := by
  induction ps generalizing s with
  | nil => simp
  | cons p ps ih =>
    cases p with
    | none => simpa [avgStep] using ih s
    | some v =>
      obtain ⟨r, g, b⟩ := v
      rw [List.foldl_cons, ih]
      simp only [avgStep, List.filterMap_cons_some, List.map_cons, List.sum_cons,
        List.length_cons, id_eq]
      refine Prod.ext ?_ (Prod.ext ?_ (Prod.ext ?_ ?_)) <;> simp <;> ring

/-- Closed form of `average_pixels` in terms of the non-transparent inputs. -/
theorem average_pixels_eq (ps : List Pixel) :
    average_pixels ps =
      if (ps.filterMap id).length = 0 then none
      else
        some (pyRound (((((ps.filterMap id).map fun v => v.1).sum : Int) : ℚ) /
                ((ps.filterMap id).length : ℚ)),
              pyRound (((((ps.filterMap id).map fun v => v.2.1).sum : Int) : ℚ) /
                ((ps.filterMap id).length : ℚ)),
              pyRound (((((ps.filterMap id).map fun v => v.2.2).sum : Int) : ℚ) /
                ((ps.filterMap id).length : ℚ))) := by
  unfold average_pixels
  rw [foldl_avgStep]
  simp only [zero_add, Nat.cast_eq_zero, Int.cast_natCast]

/-- C2: `average_pixels` returns a transparent pixel when every input pixel is
transparent, and otherwise a pixel whose red, green and blue channels are,
independently, the sum of that channel over the non-transparent inputs
divided by the count of non-transparent inputs, rounded to the nearest
integer with exact-half ties resolved by Python's round-half-to-even. -/
theorem average_pixels_spec (ps : List Pixel)
    (hv : ∀ p ∈ ps, p.all is_valid_rgb_colour = true) :
    (ps.filterMap id = [] → average_pixels ps = none) ∧
    (ps.filterMap id ≠ [] →
      average_pixels ps =
        some (pyRound (((((ps.filterMap id).map fun v => v.1).sum : Int) : ℚ) /
                ((ps.filterMap id).length : ℚ)),
              pyRound (((((ps.filterMap id).map fun v => v.2.1).sum : Int) : ℚ) /
                ((ps.filterMap id).length : ℚ)),
              pyRound (((((ps.filterMap id).map fun v => v.2.2).sum : Int) : ℚ) /
                ((ps.filterMap id).length : ℚ)))) := by
  constructor
  · intro he
    rw [average_pixels_eq, if_pos (by rw [he]; rfl)]
  · intro hne
    have hlen : (ps.filterMap id).length ≠ 0 := fun h0 => hne (List.length_eq_zero.mp h0)
    rw [average_pixels_eq, if_neg hlen]

/-- Witness for C2, at the spec's own example `{(1,2,3),(2,3,5)}` together
with a transparent pixel (exercising the skip-transparent rule). -/
theorem average_pixels_spec_witness :
    (∀ p ∈ ([some (1, 2, 3), none, some (2, 3, 5)] : List Pixel),
        p.all is_valid_rgb_colour = true) ∧
    average_pixels ([some (1, 2, 3), none, some (2, 3, 5)] : List Pixel) = some (2, 2, 4) := by
  refine ⟨by decide, ?_⟩
  have h := (average_pixels_spec ([some (1, 2, 3), none, some (2, 3, 5)] : List Pixel)
    (by decide)).2 (by decide)
  rw [h]
  have e1 : (List.map (fun v => v.1)
      (List.filterMap id ([some (1, 2, 3), none, some (2, 3, 5)] : List Pixel))).sum = (3:Int) := by
    decide
  have e2 : (List.map (fun v => v.2.1)
      (List.filterMap id ([some (1, 2, 3), none, some (2, 3, 5)] : List Pixel))).sum = (5:Int) := by
    decide
  have e3 : (List.map (fun v => v.2.2)
      (List.filterMap id ([some (1, 2, 3), none, some (2, 3, 5)] : List Pixel))).sum = (8:Int) := by
    decide
  have elen : (List.filterMap id ([some (1, 2, 3), none, some (2, 3, 5)] : List Pixel)).length = 2 := by
    decide
  rw [e1, e2, e3, elen]
  have c32 : (((3:Int) : ℚ) / ((2:ℕ) : ℚ)) = ((1 : Int) : ℚ) + 1/2 := by push_cast; norm_num
  have c52 : (((5:Int) : ℚ) / ((2:ℕ) : ℚ)) = ((2 : Int) : ℚ) + 1/2 := by push_cast; norm_num
  have c82 : (((8:Int) : ℚ) / ((2:ℕ) : ℚ)) = ((4 : Int) : ℚ) := by push_cast; norm_num
  rw [c32, c52, c82, pyRound_add_half, pyRound_add_half, pyRound_intCast]
  norm_num

/-- The predicate picked out by the compositing scans: a visible layer whose
pixel at `loc` is non-transparent. -/
def hitsAt (loc : Nat × Nat) (l : Layer) : Bool :=
  l.visible && !(l.get_pixel loc).isNone

theorem getHexRgbScan_eq_find (loc : Nat × Nat) (ls : List Layer) :
    getHexRgbScan loc ls =
      (ls.find? (hitsAt loc)).bind fun l => (l.get_pixel loc).map convert_to_hex_rgb := by
  induction ls with
  | nil => rfl
  | cons l ls ih =>
    by_cases hv : l.visible
    · cases hp : l.get_pixel loc with
      | none => simp [getHexRgbScan, hv, hp, List.find?_cons, hitsAt, ih]
      | some rgb => simp [getHexRgbScan, hv, hp, List.find?_cons, hitsAt]
    · simp [getHexRgbScan, hv, List.find?_cons, hitsAt, ih]

theorem canvasToPngScan_eq_find (loc : Nat × Nat) (ls : List Layer) :
    canvasToPngScan loc ls =
      (ls.find? (hitsAt loc)).bind fun l =>
        (l.get_pixel loc).map fun rgb => (rgb.1, rgb.2.1, rgb.2.2, 255) := by
  induction ls with
  | nil => rfl
  | cons l ls ih =>
    by_cases hv : l.visible
    · cases hp : l.get_pixel loc with
      | none => simp [canvasToPngScan, hv, hp, List.find?_cons, hitsAt, ih]
      | some rgb => simp [canvasToPngScan, hv, hp, List.find?_cons, hitsAt]
    · simp [canvasToPngScan, hv, List.find?_cons, hitsAt, ih]

/-- C3: for every canvas and in-bounds coordinate, the composite colour query
(`Canvas.get_hex_rgb`, and the RGBA variant `_canvas_to_png_helper`) returns
the colour of the first layer, scanning top-to-bottom, that is visible and
whose pixel at `loc` is non-transparent — as hex for the former and with full
opacity appended for the latter — and returns `none` when no such layer
exists. -/
theorem composite_color_spec (c : Canvas) (loc : Nat × Nat)
    (hx : loc.1 < c.size.1) (hy : loc.2 < c.size.2) :
    c.get_hex_rgb loc =
      ((c.layers.find? (hitsAt loc)).bind fun l =>
        (l.get_pixel loc).map convert_to_hex_rgb) ∧
    canvas_to_png_helper c loc.1 loc.2 =
      ((c.layers.find? (hitsAt loc)).bind fun l =>
        (l.get_pixel loc).map fun rgb => (rgb.1, rgb.2.1, rgb.2.2, 255)) :=
  ⟨getHexRgbScan_eq_find loc c.layers, canvasToPngScan_eq_find loc c.layers⟩

/-- Witness for C3 at the spec's compositing-order example: layers
`[A (visible, opaque red), B (hidden, opaque blue), C (visible, transparent)]`
composite to A's red at an in-bounds coordinate. -/
theorem composite_color_spec_witness :
    Canvas.get_hex_rgb
      { size := (2, 2), active_layer_index := 0,
        layers := [Layer.init 0 (2, 2) (some (129, 23, 27)) "A",
                   { Layer.init 1 (2, 2) (some (4, 67, 137)) "B" with visible := false },
                   Layer.init 2 (2, 2) none "C"] } (1, 1) =
      some ('#' :: "81171b".data) := by
  have h := (composite_color_spec
    { size := (2, 2), active_layer_index := 0,
      layers := [Layer.init 0 (2, 2) (some (129, 23, 27)) "A",
                 { Layer.init 1 (2, 2) (some (4, 67, 137)) "B" with visible := false },
                 Layer.init 2 (2, 2) none "C"] } (1, 1)
    (by decide) (by decide)).1
  exact h.trans (by decide)

/-- On a stack of distinct layer objects, `list.index` of the layer stored at
position `j` is `j`. -/
theorem indexOfLayer_get (ls : List Layer) (hnd : (ls.map Layer.id).Nodup)
    (j : Nat) (hj : j < ls.length) :
    indexOfLayer ls (ls.get ⟨j, hj⟩) = j := by
  induction ls generalizing j with
  | nil => simp at hj
  | cons x xs ih =>
    rw [List.map_cons, List.nodup_cons] at hnd
    cases j with
    | zero => simp [indexOfLayer]
    | succ j =>
      have hj' : j < xs.length := by simpa using hj
      have hmem : (xs.get ⟨j, hj'⟩).id ∈ xs.map Layer.id :=
        List.mem_map_of_mem Layer.id (xs.get_mem j hj')
      have hne : ¬ x.id = (xs.get ⟨j, hj'⟩).id := fun h => hnd.1 (h ▸ hmem)
      simp only [List.get_cons_succ, indexOfLayer, hne, if_false]
      rw [ih hnd.2 j hj']

/-- Unfolding of `remove_layer` at the layer stored at position `j`. -/
theorem remove_layer_eq (c : Canvas) (j : Nat) (hj : j < c.layers.length)
    (hnd : (c.layers.map Layer.id).Nodup) :
    c.remove_layer (c.layers.get ⟨j, hj⟩) =
      { c with
        layers := c.layers.eraseIdx j,
        active_layer_index :=
          if c.active_layer_index = (j : Int) then
            (if c.active_layer_index ≥ ((c.layers.eraseIdx j).length : Int) then
               ((c.layers.eraseIdx j).length : Int) - 1
             else c.active_layer_index)
          else if c.active_layer_index > (j : Int) then c.active_layer_index - 1
          else c.active_layer_index } := by
  simp only [Canvas.remove_layer, indexOfLayer_get c.layers hnd j hj]

/-- C4: `remove_layer` on a canvas with at least two layers removes the layer
at its position `j`, keeping the remaining layers in order, and updates the
active index exactly as specified: decrement when the removed layer was above
the active one, re-clamp to the new last index when the removed layer was
active at the last position, and leave it unchanged otherwise. -/
theorem remove_layer_spec (c : Canvas) (j : Nat) (hj : j < c.layers.length)
    (h2 : 2 ≤ c.layers.length)
    (hnd : (c.layers.map Layer.id).Nodup)
    (ha : 0 ≤ c.active_layer_index ∧ c.active_layer_index < (c.layers.length : Int)) :
    (c.remove_layer (c.layers.get ⟨j, hj⟩)).layers = c.layers.eraseIdx j ∧
    (c.remove_layer (c.layers.get ⟨j, hj⟩)).active_layer_index =
      (if (j : Int) < c.active_layer_index then c.active_layer_index - 1
       else if (j : Int) = c.active_layer_index then
         (if c.active_layer_index = (c.layers.length : Int) - 1
          then (c.layers.length : Int) - 2
          else c.active_layer_index)
       else c.active_layer_index) := by
  rw [remove_layer_eq c j hj hnd]
  refine ⟨rfl, ?_⟩
  have hlen : ((c.layers.eraseIdx j).length : Int) = (c.layers.length : Int) - 1 := by
    rw [List.length_eraseIdx_of_lt hj]; omega
  dsimp only
  rw [hlen]
  split_ifs <;> omega

/-- Witness for C4: removing the top layer (above the active one) decrements
the active index. -/
theorem remove_layer_spec_witness :
    (Canvas.remove_layer
      { size := (1, 1), active_layer_index := 1,
        layers := [Layer.init 0 (1, 1) none "A", Layer.init 1 (1, 1) none "B",
                   Layer.init 2 (1, 1) none "C"] }
      (Layer.init 0 (1, 1) none "A")).layers =
        [Layer.init 1 (1, 1) none "B", Layer.init 2 (1, 1) none "C"] ∧
    (Canvas.remove_layer
      { size := (1, 1), active_layer_index := 1,
        layers := [Layer.init 0 (1, 1) none "A", Layer.init 1 (1, 1) none "B",
                   Layer.init 2 (1, 1) none "C"] }
      (Layer.init 0 (1, 1) none "A")).active_layer_index = 0 := by
  have h := remove_layer_spec
    { size := (1, 1), active_layer_index := 1,
      layers := [Layer.init 0 (1, 1) none "A", Layer.init 1 (1, 1) none "B",
                 Layer.init 2 (1, 1) none "C"] }
    0 (by decide) (by decide) (by decide) ⟨by decide, by decide⟩
  exact ⟨h.1.trans (by decide), h.2.trans (by decide)⟩

/-- Where the element originally at position `k` lands when the element at
position `j` is popped and re-inserted at position `dest`. -/
def newPos (j dest k : Nat) : Nat :=
  if k = j then dest
  else if j < k ∧ k ≤ dest then k - 1
  else if dest ≤ k ∧ k < j then k + 1
  else k

theorem getElem?_insertIdx_self {α : Type} (l : List α) (x : α) (n : Nat)
    (hn : n ≤ l.length) : (l.insertIdx n x)[n]? = some x := by
  rw [List.getElem?_eq_getElem (by rw [List.length_insertIdx _ _ hn]; omega),
    List.getElem_insertIdx_self _ _ _ hn]

theorem getElem?_insertIdx_of_lt {α : Type} (l : List α) (x : α) (n k : Nat)
    (h : k < n) (hk : k < l.length) : (l.insertIdx n x)[k]? = l[k]? := by
  have hk' : k < (l.insertIdx n x).length :=
    hk.trans_le (List.length_le_length_insertIdx _ _ _)
  rw [List.getElem?_eq_getElem hk', List.getElem?_eq_getElem hk,
    List.getElem_insertIdx_of_lt _ _ _ _ h hk]

theorem getElem?_insertIdx_add_succ {α : Type} (l : List α) (x : α) (n k : Nat)
    (hk : n + k < l.length) : (l.insertIdx n x)[n + k + 1]? = l[n + k]? := by
  have h1 : n + k + 1 < (l.insertIdx n x).length := by
    rw [List.length_insertIdx _ _ (by omega)]; omega
  rw [List.getElem?_eq_getElem h1, List.getElem?_eq_getElem hk,
    List.getElem_insertIdx_add_succ _ _ _ _ hk]

theorem getElem?_eraseIdx_of_lt {α : Type} (l : List α) (n k : Nat)
    (h : k < n) (hk : k < l.length - 1) : (l.eraseIdx n)[k]? = l[k]? := by
  have h1 : k < (l.eraseIdx n).length := by
    have := List.le_length_eraseIdx l n; omega
  have h2 : k < l.length := by omega
  rw [List.getElem?_eq_getElem h1, List.getElem?_eq_getElem h2,
    List.getElem_eraseIdx_of_lt _ _ _ _ h]

theorem getElem?_eraseIdx_of_ge {α : Type} (l : List α) (n k : Nat)
    (h : n ≤ k) (hk : k < l.length - 1) : (l.eraseIdx n)[k]? = l[k + 1]? := by
  have h1 : k < (l.eraseIdx n).length := by
    have := List.le_length_eraseIdx l n; omega
  have h2 : k + 1 < l.length := by omega
  rw [List.getElem?_eq_getElem h1, List.getElem?_eq_getElem h2,
    List.getElem_eraseIdx_of_ge _ _ _ _ h]

/-- Popping position `j` and re-inserting it at `dest` sends the element at
any position `k` to position `newPos j dest k`. -/
theorem getElem?_eraseIdx_insertIdx {α : Type} (ls : List α) (j dest k : Nat)
    (hj : j < ls.length) (hdest : dest < ls.length) (hk : k < ls.length) :
    ((ls.eraseIdx j).insertIdx dest (ls.get ⟨j, hj⟩))[newPos j dest k]? = ls[k]? := by
  have ht : (ls.eraseIdx j).length = ls.length - 1 := List.length_eraseIdx_of_lt hj
  unfold newPos
  split_ifs with h1 h2 h3
  · subst h1
    rw [getElem?_insertIdx_self _ _ _ (by omega), List.getElem?_eq_getElem hj]
    rfl
  · rw [getElem?_insertIdx_of_lt _ _ _ _ (by omega) (by omega),
      getElem?_eraseIdx_of_ge _ _ _ (by omega) (by omega),
      show k - 1 + 1 = k from by omega]
  · rw [show k + 1 = dest + (k - dest) + 1 from by omega,
      getElem?_insertIdx_add_succ _ _ _ _ (by omega),
      show dest + (k - dest) = k from by omega,
      getElem?_eraseIdx_of_lt _ _ _ (by omega) (by omega)]
  · rcases Nat.lt_or_ge k j with hkj | hkj
    · rw [getElem?_insertIdx_of_lt _ _ _ _ (by omega) (by omega),
        getElem?_eraseIdx_of_lt _ _ _ (by omega) (by omega)]
    · rw [show k = dest + (k - dest - 1) + 1 from by omega,
        getElem?_insertIdx_add_succ _ _ _ _ (by omega),
        show dest + (k - dest - 1) = k - 1 from by omega,
        getElem?_eraseIdx_of_ge _ _ _ (by omega) (by omega),
        show k - 1 + 1 = dest + (k - dest - 1) + 1 from by omega]

/-- Unfolding of `move_layer` at the layer stored at position `j`, with the
clamped destination index abbreviated as `dest`. -/
theorem move_layer_eq (c : Canvas) (j : Nat) (i : Int) (hj : j < c.layers.length)
    (hnd : (c.layers.map Layer.id).Nodup) (dest : Nat)
    (hdest : (dest : Int) = max 0 (min ((j : Int) - i) ((c.layers.length : Int) - 1))) :
    c.move_layer (c.layers.get ⟨j, hj⟩) i =
      { c with
        layers := (c.layers.eraseIdx j).insertIdx dest (c.layers.get ⟨j, hj⟩),
        active_layer_index :=
          if c.active_layer_index = (j : Int) then (dest : Int)
          else if (j : Int) < c.active_layer_index ∧ c.active_layer_index ≤ (dest : Int) then
            c.active_layer_index - 1
          else if (dest : Int) ≤ c.active_layer_index ∧ c.active_layer_index < (j : Int) then
            c.active_layer_index + 1
          else c.active_layer_index } := by
  simp only [Canvas.move_layer, indexOfLayer_get c.layers hnd j hj, ← hdest,
    Int.toNat_natCast]

/-- C5: `move_layer` places the layer originally at index `j` at the
destination index `clamp(j - i, 0, count - 1)`, preserves the relative order
of all other layers, updates the active index by the specified case analysis,
and afterwards the active index still denotes the layer that was active
before the move. -/
theorem move_layer_spec (c : Canvas) (j : Nat) (i : Int) (hj : j < c.layers.length)
    (hnd : (c.layers.map Layer.id).Nodup)
    (ha : 0 ≤ c.active_layer_index ∧ c.active_layer_index < (c.layers.length : Int))
    (dest : Nat)
    (hdest : (dest : Int) = max 0 (min ((j : Int) - i) ((c.layers.length : Int) - 1))) :
    (c.move_layer (c.layers.get ⟨j, hj⟩) i).layers[dest]? = some (c.layers.get ⟨j, hj⟩) ∧
    (c.move_layer (c.layers.get ⟨j, hj⟩) i).layers.eraseIdx dest = c.layers.eraseIdx j ∧
    (c.move_layer (c.layers.get ⟨j, hj⟩) i).active_layer_index =
      (if c.active_layer_index = (j : Int) then (dest : Int)
       else if (j : Int) < c.active_layer_index ∧ c.active_layer_index ≤ (dest : Int) then
         c.active_layer_index - 1
       else if (dest : Int) ≤ c.active_layer_index ∧ c.active_layer_index < (j : Int) then
         c.active_layer_index + 1
       else c.active_layer_index) ∧
    (c.move_layer (c.layers.get ⟨j, hj⟩) i).layers[
        (c.move_layer (c.layers.get ⟨j, hj⟩) i).active_layer_index.toNat]? =
      c.layers[c.active_layer_index.toNat]? := by
  have hdlt : dest < c.layers.length := by
    have h1 : max 0 (min ((j : Int) - i) ((c.layers.length : Int) - 1)) ≤
        (c.layers.length : Int) - 1 := max_le (by omega) (min_le_right _ _)
    omega
  rw [move_layer_eq c j i hj hnd dest hdest]
  refine ⟨?_, ?_, rfl, ?_⟩
  · have h := getElem?_eraseIdx_insertIdx c.layers j dest j hj hdlt hj
    rw [newPos, if_pos rfl] at h
    rw [h, List.getElem?_eq_getElem hj]
    rfl
  · exact List.eraseIdx_insertIdx dest (c.layers.eraseIdx j)
  · have hna : c.active_layer_index.toNat < c.layers.length := by omega
    have h := getElem?_eraseIdx_insertIdx c.layers j dest
      c.active_layer_index.toNat hj hdlt hna
    have hidx : (if c.active_layer_index = (j : Int) then (dest : Int)
        else if (j : Int) < c.active_layer_index ∧ c.active_layer_index ≤ (dest : Int) then
          c.active_layer_index - 1
        else if (dest : Int) ≤ c.active_layer_index ∧ c.active_layer_index < (j : Int) then
          c.active_layer_index + 1
        else c.active_layer_index).toNat = newPos j dest c.active_layer_index.toNat := by
      unfold newPos
      split_ifs <;> omega
    rw [hidx]
    exact h

/-- Witness for C5: in a five-layer canvas with the second layer active,
moving the fourth layer up by two places it at index 1 and shifts the active
index from 1 to 2 (it crossed over the active layer). -/
theorem move_layer_spec_witness :
    (Canvas.move_layer
      { size := (1, 1), active_layer_index := 1,
        layers := [Layer.init 0 (1, 1) none "A", Layer.init 1 (1, 1) none "B",
                   Layer.init 2 (1, 1) none "C", Layer.init 3 (1, 1) none "D",
                   Layer.init 4 (1, 1) none "E"] }
      (Layer.init 3 (1, 1) none "D") 2).layers[1]? = some (Layer.init 3 (1, 1) none "D") ∧
    (Canvas.move_layer
      { size := (1, 1), active_layer_index := 1,
        layers := [Layer.init 0 (1, 1) none "A", Layer.init 1 (1, 1) none "B",
                   Layer.init 2 (1, 1) none "C", Layer.init 3 (1, 1) none "D",
                   Layer.init 4 (1, 1) none "E"] }
      (Layer.init 3 (1, 1) none "D") 2).active_layer_index = 2 := by
  have h := move_layer_spec
    { size := (1, 1), active_layer_index := 1,
      layers := [Layer.init 0 (1, 1) none "A", Layer.init 1 (1, 1) none "B",
                 Layer.init 2 (1, 1) none "C", Layer.init 3 (1, 1) none "D",
                 Layer.init 4 (1, 1) none "E"] }
    3 2 (by decide) (by decide) ⟨by decide, by decide⟩ 1 (by decide)
  exact ⟨h.1.trans (by decide), h.2.2.1.trans (by decide)⟩

/-- The representation invariants of `Canvas` from canvas.py: every layer's
size equals the canvas size, no layer object appears twice (distinct
identities), and the active index is in range, or is the `-1` sentinel
exactly when there are no layers. -/
def CanvasInv (c : Canvas) : Prop :=
  (∀ l ∈ c.layers, l.size = c.size) ∧
  (c.layers.map Layer.id).Nodup ∧
  ((0 ≤ c.active_layer_index ∧ c.active_layer_index < (c.layers.length : Int)) ∨
   (c.active_layer_index = -1 ∧ c.layers = []))

instance (c : Canvas) : Decidable (CanvasInv c) := by
  unfold CanvasInv; infer_instance

theorem insertIdx_perm {α : Type} (a : α) :
    ∀ (n : Nat) (l : List α), n ≤ l.length → List.Perm (l.insertIdx n a) (a :: l)
  | 0, l, _ => by rw [List.insertIdx_zero]
  | n + 1, [], h => by simp at h
  | n + 1, x :: xs, h => by
    rw [List.insertIdx_succ_cons]
    exact ((insertIdx_perm a n xs (by simpa using h)).cons x).trans
      (List.Perm.swap _ _ _)

theorem perm_cons_eraseIdx {α : Type} :
    ∀ (l : List α) (j : Nat) (hj : j < l.length), List.Perm l (l[j] :: l.eraseIdx j)
  | x :: xs, 0, _ => by simp
  | x :: xs, j + 1, hj => by
    simp only [List.eraseIdx_cons_succ, List.getElem_cons_succ]
    exact ((perm_cons_eraseIdx xs j (by simpa using hj)).cons x).trans
      (List.Perm.swap _ _ _)

/-- C8: every canvas operation, called with its documented preconditions on a
canvas satisfying the representation invariants, preserves them: `add_layer`
(matching size, layer not already present), `remove_layer` (at least two
layers, layer present), `move_layer` (layer present, nonzero offset),
`set_active_layer_index` (index in range), `change_active_layer` (layer
present), `upscale`, and `downscale` (both dimensions even and greater
than 1). -/
theorem canvas_ops_preserve_inv :
    (∀ (c : Canvas) (l : Layer), CanvasInv c → l.size = c.size →
      l.id ∉ c.layers.map Layer.id → CanvasInv (c.add_layer l)) ∧
    (∀ (c : Canvas) (j : Nat) (hj : j < c.layers.length), CanvasInv c →
      2 ≤ c.layers.length → CanvasInv (c.remove_layer (c.layers.get ⟨j, hj⟩))) ∧
    (∀ (c : Canvas) (j : Nat) (i : Int) (hj : j < c.layers.length), CanvasInv c →
      i ≠ 0 → CanvasInv (c.move_layer (c.layers.get ⟨j, hj⟩) i)) ∧
    (∀ (c : Canvas) (k : Int), CanvasInv c → 0 ≤ k → k < (c.layers.length : Int) →
      CanvasInv (c.set_active_layer_index k)) ∧
    (∀ (c : Canvas) (j : Nat) (hj : j < c.layers.length), CanvasInv c →
      CanvasInv (c.change_active_layer (c.layers.get ⟨j, hj⟩))) ∧
    (∀ (c : Canvas) (fresh : Nat), CanvasInv c → CanvasInv (c.upscale fresh)) ∧
    (∀ (c : Canvas) (fresh : Nat), CanvasInv c → c.size.1 % 2 = 0 → c.size.2 % 2 = 0 →
      1 < c.size.1 → 1 < c.size.2 → CanvasInv (c.downscale fresh)) := by
  have enumIds : ∀ (ls : List Layer) (f : Nat × Layer → Layer)
      (hf : ∀ kl, (f kl).id = kl.1),
      (ls.enum.map f).map Layer.id = (List.range ls.length).map (fun k => k) := by
    intro ls f hf
    rw [List.map_map]
    have h1 : (Layer.id ∘ f) = Prod.fst := funext fun kl => hf kl
    rw [h1, List.enum_map_fst]
    simp
  refine ⟨?_, ?_, ?_, ?_, ?_, ?_, ?_⟩
  · rintro c l ⟨hs, hnd, hact⟩ hsize hnotin
    refine ⟨?_, ?_, ?_⟩
    · intro m hm
      rcases List.mem_append.mp hm with h | h
      · exact hs m h
      · rw [List.mem_singleton.mp h]; exact hsize
    · show ((c.layers ++ [l]).map Layer.id).Nodup
      rw [List.map_append, List.nodup_append]
      exact ⟨hnd, List.nodup_singleton _,
        fun a ha hb => hnotin ((List.mem_singleton.mp hb) ▸ ha)⟩
    · show 0 ≤ (if c.active_layer_index = -1 then 0 else c.active_layer_index) ∧
        (if c.active_layer_index = -1 then 0 else c.active_layer_index) <
          ((c.layers ++ [l]).length : Int) ∨ _
      rw [List.length_append]
      rcases hact with ⟨h0, hlt⟩ | ⟨he, hemp⟩
      · rw [if_neg (by omega)]
        refine Or.inl ⟨h0, ?_⟩
        push_cast
        omega
      · rw [if_pos he]
        left
        constructor
        · omega
        · rw [hemp]; simp
  · rintro c j hj ⟨hs, hnd, hact⟩ h2
    rw [remove_layer_eq c j hj hnd]
    have hlen : (c.layers.eraseIdx j).length = c.layers.length - 1 :=
      List.length_eraseIdx_of_lt hj
    have hrange : 0 ≤ c.active_layer_index ∧
        c.active_layer_index < (c.layers.length : Int) := by
      rcases hact with h | ⟨_, hemp⟩
      · exact h
      · rw [hemp] at h2; simp at h2
    refine ⟨?_, ?_, Or.inl ⟨?_, ?_⟩⟩
    · intro m hm
      exact hs m (List.mem_of_mem_eraseIdx hm)
    · exact ((List.eraseIdx_sublist c.layers j).map Layer.id).nodup hnd
    · dsimp only
      split_ifs <;> omega
    · dsimp only
      split_ifs <;> omega
  · rintro c j i hj ⟨hs, hnd, hact⟩ hi0
    have hdlt : (max 0 (min ((j : Int) - i) ((c.layers.length : Int) - 1))).toNat <
        c.layers.length := by
      have h1 : max 0 (min ((j : Int) - i) ((c.layers.length : Int) - 1)) ≤
          (c.layers.length : Int) - 1 := max_le (by omega) (min_le_right _ _)
      omega
    have hdest : (((max 0 (min ((j : Int) - i) ((c.layers.length : Int) - 1))).toNat : Int)) =
        max 0 (min ((j : Int) - i) ((c.layers.length : Int) - 1)) :=
      Int.toNat_of_nonneg (le_max_left _ _)
    rw [move_layer_eq c j i hj hnd _ hdest]
    have htlen : (c.layers.eraseIdx j).length = c.layers.length - 1 :=
      List.length_eraseIdx_of_lt hj
    have hperm : List.Perm ((c.layers.eraseIdx j).insertIdx
        (max 0 (min ((j : Int) - i) ((c.layers.length : Int) - 1))).toNat
        (c.layers.get ⟨j, hj⟩)) c.layers := by
      refine (insertIdx_perm _ _ _ (by omega)).trans ?_
      exact (perm_cons_eraseIdx c.layers j hj).symm
    have hrange : 0 ≤ c.active_layer_index ∧
        c.active_layer_index < (c.layers.length : Int) := by
      rcases hact with h | ⟨_, hemp⟩
      · exact h
      · rw [hemp] at hj; simp at hj
    refine ⟨?_, ?_, Or.inl ⟨?_, ?_⟩⟩
    · intro m hm
      exact hs m (hperm.mem_iff.mp hm)
    · exact ((hperm.map Layer.id).nodup_iff).mpr hnd
    · dsimp only
      split_ifs <;> omega
    · dsimp only
      rw [hperm.length_eq]
      split_ifs <;> omega
  · rintro c k ⟨hs, hnd, hact⟩ hk0 hklt
    exact ⟨hs, hnd, Or.inl ⟨hk0, hklt⟩⟩
  · rintro c j hj ⟨hs, hnd, hact⟩
    refine ⟨hs, hnd, Or.inl ⟨?_, ?_⟩⟩
    · show (0 : Int) ≤ ((indexOfLayer c.layers (c.layers.get ⟨j, hj⟩) : Nat) : Int)
      exact Int.natCast_nonneg _
    · show ((indexOfLayer c.layers (c.layers.get ⟨j, hj⟩) : Nat) : Int) <
        (c.layers.length : Int)
      rw [indexOfLayer_get c.layers hnd j hj]
      omega
  · rintro c fresh ⟨hs, hnd, hact⟩
    refine ⟨?_, ?_, ?_⟩
    · intro m hm
      obtain ⟨kl, hkl, rfl⟩ := List.mem_map.mp hm
      have h2 := List.snd_mem_of_mem_enumFrom hkl
      show ((kl.2.upscale (fresh + kl.1)).size) = (c.size.1 * 2, c.size.2 * 2)
      have h3 : kl.2.size = c.size := hs kl.2 h2
      show (kl.2.size.1 * 2, kl.2.size.2 * 2) = _
      rw [h3]
    · show ((c.layers.enum.map fun kl => kl.2.upscale (fresh + kl.1)).map Layer.id).Nodup
      rw [List.map_map]
      have h1 : (Layer.id ∘ fun (kl : Nat × Layer) => kl.2.upscale (fresh + kl.1)) =
          (fun n => fresh + n) ∘ Prod.fst := rfl
      rw [h1, ← List.map_map, List.enum_map_fst]
      exact (List.nodup_range _).map (fun a b h => by omega)
    · show (0 ≤ c.active_layer_index ∧ c.active_layer_index <
          ((c.layers.enum.map fun kl => kl.2.upscale (fresh + kl.1)).length : Int)) ∨
        (c.active_layer_index = -1 ∧
          (c.layers.enum.map fun kl => kl.2.upscale (fresh + kl.1)) = ([] : List Layer))
      rw [List.length_map, List.enum_length]
      rcases hact with h | ⟨he, hemp⟩
      · exact Or.inl h
      · exact Or.inr ⟨he, by simp [hemp]⟩
  · rintro c fresh ⟨hs, hnd, hact⟩ _ _ _ _
    refine ⟨?_, ?_, ?_⟩
    · intro m hm
      obtain ⟨kl, hkl, rfl⟩ := List.mem_map.mp hm
      have h2 := List.snd_mem_of_mem_enumFrom hkl
      show ((kl.2.downscale (fresh + kl.1)).size) = (c.size.1 / 2, c.size.2 / 2)
      have h3 : kl.2.size = c.size := hs kl.2 h2
      show (kl.2.size.1 / 2, kl.2.size.2 / 2) = _
      rw [h3]
    · show ((c.layers.enum.map fun kl => kl.2.downscale (fresh + kl.1)).map Layer.id).Nodup
      rw [List.map_map]
      have h1 : (Layer.id ∘ fun (kl : Nat × Layer) => kl.2.downscale (fresh + kl.1)) =
          (fun n => fresh + n) ∘ Prod.fst := rfl
      rw [h1, ← List.map_map, List.enum_map_fst]
      exact (List.nodup_range _).map (fun a b h => by omega)
    · show (0 ≤ c.active_layer_index ∧ c.active_layer_index <
          ((c.layers.enum.map fun kl => kl.2.downscale (fresh + kl.1)).length : Int)) ∨
        (c.active_layer_index = -1 ∧
          (c.layers.enum.map fun kl => kl.2.downscale (fresh + kl.1)) = ([] : List Layer))
      rw [List.length_map, List.enum_length]
      rcases hact with h | ⟨he, hemp⟩
      · exact Or.inl h
      · exact Or.inr ⟨he, by simp [hemp]⟩

/-- Witness for C8: each operation applied to a small concrete canvas
satisfying the invariants. -/
theorem canvas_ops_preserve_inv_witness :
    CanvasInv (Canvas.add_layer
      { size := (2, 2), active_layer_index := 0,
        layers := [Layer.init 0 (2, 2) none "A", Layer.init 1 (2, 2) none "B"] }
      (Layer.init 2 (2, 2) none "C")) ∧
    CanvasInv (Canvas.remove_layer
      { size := (2, 2), active_layer_index := 0,
        layers := [Layer.init 0 (2, 2) none "A", Layer.init 1 (2, 2) none "B"] }
      (Layer.init 0 (2, 2) none "A")) ∧
    CanvasInv (Canvas.move_layer
      { size := (2, 2), active_layer_index := 0,
        layers := [Layer.init 0 (2, 2) none "A", Layer.init 1 (2, 2) none "B"] }
      (Layer.init 0 (2, 2) none "A") (-1)) ∧
    CanvasInv (Canvas.set_active_layer_index
      { size := (2, 2), active_layer_index := 0,
        layers := [Layer.init 0 (2, 2) none "A", Layer.init 1 (2, 2) none "B"] } 1) ∧
    CanvasInv (Canvas.change_active_layer
      { size := (2, 2), active_layer_index := 0,
        layers := [Layer.init 0 (2, 2) none "A", Layer.init 1 (2, 2) none "B"] }
      (Layer.init 1 (2, 2) none "B")) ∧
    CanvasInv (Canvas.upscale
      { size := (2, 2), active_layer_index := 0,
        layers := [Layer.init 0 (2, 2) none "A", Layer.init 1 (2, 2) none "B"] } 7) ∧
    CanvasInv (Canvas.downscale
      { size := (2, 2), active_layer_index := 0,
        layers := [Layer.init 0 (2, 2) none "A", Layer.init 1 (2, 2) none "B"] } 7) := by
  have h := canvas_ops_preserve_inv
  exact ⟨h.1 _ _ (by decide) (by decide) (by decide),
         h.2.1 _ 0 (by decide) (by decide) (by decide),
         h.2.2.1 _ 0 (-1) (by decide) (by decide) (by decide),
         h.2.2.2.1 _ 1 (by decide) (by decide) (by decide),
         h.2.2.2.2.1 _ 1 (by decide) (by decide),
         h.2.2.2.2.2.1 _ 7 (by decide),
         h.2.2.2.2.2.2 _ 7 (by decide) (by decide) (by decide) (by decide) (by decide)⟩

/-- Reading a cell of a grid built as a `range`-indexed comprehension. -/
theorem getD_rangeMap {α : Type} (d : α) (w h : Nat) (f : Nat → Nat → α) (x y : Nat)
    (hx : x < w) (hy : y < h) :
    ((((List.range w).map fun i => (List.range h).map fun j => f i j).getD x []).getD y d) =
      f x y := by
  have h1 : ((List.range w).map fun i => (List.range h).map fun j => f i j)[x]? =
      some ((List.range h).map fun j => f x j) := by
    rw [List.getElem?_map, List.getElem?_range hx, Option.map_some']
  have h2 : ((List.range h).map fun j => f x j)[y]? = some (f x y) := by
    rw [List.getElem?_map, List.getElem?_range hy, Option.map_some']
  simp only [List.getD_eq_getElem?_getD]
  rw [h1, Option.getD_some, h2, Option.getD_some]

theorem layer_upscale_get (l : Layer) (oid : Nat) (i j : Nat)
    (hi : i < l.size.1 * 2) (hj : j < l.size.2 * 2) :
    (l.upscale oid).get_pixel (i, j) = l.get_pixel (i / 2, j / 2) :=
  getD_rangeMap none (l.size.1 * 2) (l.size.2 * 2)
    (fun i j => l.get_pixel (i / 2, j / 2)) i j hi hj

theorem layer_downscale_get (l : Layer) (oid : Nat) (x y : Nat)
    (hx : x < l.size.1 / 2) (hy : y < l.size.2 / 2) :
    (l.downscale oid).get_pixel (x, y) =
      average_pixels [l.get_pixel (2 * x, 2 * y), l.get_pixel (2 * x + 1, 2 * y),
                      l.get_pixel (2 * x, 2 * y + 1), l.get_pixel (2 * x + 1, 2 * y + 1)] :=
  getD_rangeMap none (l.size.1 / 2) (l.size.2 / 2) _ x y hx hy

/-- Averaging four copies of one pixel (the 2×2 block produced by `upscale`)
gives that pixel back: an all-transparent block stays transparent, and for a
colour each channel is `round(4r/4) = r`. -/
theorem average_pixels_replicate (v : Pixel) : average_pixels [v, v, v, v] = v := by
  cases v with
  | none => rfl
  | some rgb =>
    obtain ⟨r, g, b⟩ := rgb
    rw [average_pixels_eq]
    have he : List.filterMap id ([some (r, g, b), some (r, g, b), some (r, g, b),
        some (r, g, b)] : List Pixel) = [(r, g, b), (r, g, b), (r, g, b), (r, g, b)] := rfl
    rw [he]
    rw [if_neg (by simp)]
    have hq : ∀ t : Int, (((t + (t + (t + (t + 0)))) : Int) : ℚ) / ((4 : ℕ) : ℚ) =
        ((t : Int) : ℚ) := by
      intro t
      push_cast
      ring
    simp only [List.map_cons, List.map_nil, List.sum_cons, List.sum_nil, List.length_cons,
      List.length_nil]
    rw [show (0 + 1 + 1 + 1 + 1 : ℕ) = 4 from rfl]
    rw [hq r, hq g, hq b, pyRound_intCast, pyRound_intCast, pyRound_intCast]

/-- The composite `downscale (upscale l)` is the identity on a layer that is
uniformly one colour (or uniformly transparent). -/
theorem layer_up_down_uniform (l : Layer) (o1 o2 : Nat) (v : Pixel)
    (hu : ∀ x y, x < l.size.1 → y < l.size.2 → l.get_pixel (x, y) = v) :
    ((l.upscale o1).downscale o2).name = l.name ∧
    ((l.upscale o1).downscale o2).visible = l.visible ∧
    ((l.upscale o1).downscale o2).size = l.size ∧
    ∀ x y, x < l.size.1 → y < l.size.2 →
      ((l.upscale o1).downscale o2).get_pixel (x, y) = l.get_pixel (x, y) := by
  have hsz : ((l.upscale o1).downscale o2).size = l.size := by
    show (l.size.1 * 2 / 2, l.size.2 * 2 / 2) = l.size
    rw [Nat.mul_div_cancel _ (by norm_num), Nat.mul_div_cancel _ (by norm_num)]
  refine ⟨rfl, rfl, hsz, ?_⟩
  intro x y hx hy
  have hx2 : x < (l.upscale o1).size.1 / 2 := by
    show x < l.size.1 * 2 / 2
    omega
  have hy2 : y < (l.upscale o1).size.2 / 2 := by
    show y < l.size.2 * 2 / 2
    omega
  rw [layer_downscale_get _ _ _ _ hx2 hy2]
  have hb : ∀ i j, i < l.size.1 * 2 → j < l.size.2 * 2 →
      (l.upscale o1).get_pixel (i, j) = l.get_pixel (i / 2, j / 2) := fun i j hi hj =>
    layer_upscale_get l o1 i j hi hj
  have g1 : (l.upscale o1).get_pixel (2 * x, 2 * y) = v := by
    rw [hb (2 * x) (2 * y) (by omega) (by omega),
      show (2 * x) / 2 = x from by omega, show (2 * y) / 2 = y from by omega]
    exact hu x y hx hy
  have g2 : (l.upscale o1).get_pixel (2 * x + 1, 2 * y) = v := by
    rw [hb (2 * x + 1) (2 * y) (by omega) (by omega),
      show (2 * x + 1) / 2 = x from by omega, show (2 * y) / 2 = y from by omega]
    exact hu x y hx hy
  have g3 : (l.upscale o1).get_pixel (2 * x, 2 * y + 1) = v := by
    rw [hb (2 * x) (2 * y + 1) (by omega) (by omega),
      show (2 * x) / 2 = x from by omega, show (2 * y + 1) / 2 = y from by omega]
    exact hu x y hx hy
  have g4 : (l.upscale o1).get_pixel (2 * x + 1, 2 * y + 1) = v := by
    rw [hb (2 * x + 1) (2 * y + 1) (by omega) (by omega),
      show (2 * x + 1) / 2 = x from by omega, show (2 * y + 1) / 2 = y from by omega]
    exact hu x y hx hy
  rw [g1, g2, g3, g4, average_pixels_replicate, hu x y hx hy]

/-- C7: for a canvas whose every layer is uniformly one colour (or uniformly
transparent), `upscale` followed by `downscale` restores the canvas exactly:
the original size, and every layer's original name, visibility flag and
per-pixel colour at every in-bounds coordinate. -/
theorem downscale_upscale_uniform (c : Canvas) (fresh fresh2 : Nat)
    (hw : 1 ≤ c.size.1) (hh : 1 ≤ c.size.2)
    (hsz : ∀ l ∈ c.layers, l.size = c.size)
    (huni : ∀ l ∈ c.layers, ∃ v : Pixel, ∀ x y, x < c.size.1 → y < c.size.2 →
      l.get_pixel (x, y) = v) :
    ((c.upscale fresh).downscale fresh2).size = c.size ∧
    ((c.upscale fresh).downscale fresh2).layers.length = c.layers.length ∧
    ∀ k, (hk : k < c.layers.length) →
      ((c.upscale fresh).downscale fresh2).layers[k]?.map Layer.name =
        some (c.layers.get ⟨k, hk⟩).name ∧
      ((c.upscale fresh).downscale fresh2).layers[k]?.map Layer.visible =
        some (c.layers.get ⟨k, hk⟩).visible ∧
      (∀ x y, x < c.size.1 → y < c.size.2 →
        ((c.upscale fresh).downscale fresh2).layers[k]?.map
          (fun l => l.get_pixel (x, y)) =
          some ((c.layers.get ⟨k, hk⟩).get_pixel (x, y))) := by
  have hsize : ((c.upscale fresh).downscale fresh2).size = c.size := by
    show (c.size.1 * 2 / 2, c.size.2 * 2 / 2) = c.size
    rw [Nat.mul_div_cancel _ (by norm_num), Nat.mul_div_cancel _ (by norm_num)]
  have hlen : ((c.upscale fresh).downscale fresh2).layers.length = c.layers.length := by
    show ((((c.layers.enum.map _).enum).map _).length) = _
    rw [List.length_map, List.enum_length, List.length_map, List.enum_length]
  refine ⟨hsize, hlen, ?_⟩
  intro k hk
  have hk2 : k < ((c.upscale fresh).downscale fresh2).layers.length := by omega
  have hget : ((c.upscale fresh).downscale fresh2).layers[k] =
      ((c.layers[k].upscale (fresh + k)).downscale (fresh2 + k)) := by
    show ((c.layers.enum.map fun kl => kl.2.upscale (fresh + kl.1)).enum.map
      fun kl => kl.2.downscale (fresh2 + kl.1))[k] = _
    rw [List.getElem_map, List.getElem_enum, List.getElem_map, List.getElem_enum]
  have hmem : c.layers[k] ∈ c.layers := c.layers.getElem_mem _
  obtain ⟨v, hv⟩ := huni c.layers[k] hmem
  have hu : ∀ x y, x < c.layers[k].size.1 → y < c.layers[k].size.2 →
      c.layers[k].get_pixel (x, y) = v := by
    have hs := hsz c.layers[k] hmem
    intro x y hx hy
    exact hv x y (by rw [hs] at hx; exact hx) (by rw [hs] at hy; exact hy)
  have hlay := layer_up_down_uniform c.layers[k] (fresh + k) (fresh2 + k) v hu
  have hq : ((c.upscale fresh).downscale fresh2).layers[k]? =
      some ((c.layers[k].upscale (fresh + k)).downscale (fresh2 + k)) := by
    rw [List.getElem?_eq_getElem hk2, hget]
  have hsk := hsz c.layers[k] hmem
  refine ⟨?_, ?_, ?_⟩
  · rw [hq]
    simp only [Option.map_some']
    rw [hlay.1]
    rfl
  · rw [hq]
    simp only [Option.map_some']
    rw [hlay.2.1]
    rfl
  · intro x y hx hy
    rw [hq]
    simp only [Option.map_some']
    rw [hlay.2.2.2 x y (by rw [hsk]; exact hx) (by rw [hsk]; exact hy)]
    rfl

/-- Witness for C7 on a 1×1 canvas with one uniform coloured layer and one
uniform transparent layer. -/
theorem downscale_upscale_uniform_witness :
    ((Canvas.upscale
      { size := (1, 1), active_layer_index := 0,
        layers := [Layer.init 0 (1, 1) (some (5, 6, 7)) "A",
                   Layer.init 1 (1, 1) none "B"] } 2).downscale 4).size = (1, 1) ∧
    ((Canvas.upscale
      { size := (1, 1), active_layer_index := 0,
        layers := [Layer.init 0 (1, 1) (some (5, 6, 7)) "A",
                   Layer.init 1 (1, 1) none "B"] } 2).downscale 4).layers.length = 2 := by
  have h := downscale_upscale_uniform
    { size := (1, 1), active_layer_index := 0,
      layers := [Layer.init 0 (1, 1) (some (5, 6, 7)) "A",
                 Layer.init 1 (1, 1) none "B"] } 2 4
    (by decide) (by decide) (by decide)
    (by
      intro l hl
      have hl' : l = Layer.init 0 (1, 1) (some (5, 6, 7)) "A" ∨
          l = Layer.init 1 (1, 1) none "B" := by simpa using hl
      rcases hl' with h1 | h1
      · refine ⟨some (5, 6, 7), ?_⟩
        intro x y hx hy
        have hx' : x < 1 := hx
        have hy' : y < 1 := hy
        have hx0 : x = 0 := by omega
        have hy0 : y = 0 := by omega
        subst hx0; subst hy0; subst h1; decide
      · refine ⟨none, ?_⟩
        intro x y hx hy
        have hx' : x < 1 := hx
        have hy' : y < 1 := hy
        have hx0 : x = 0 := by omega
        have hy0 : y = 0 := by omega
        subst hx0; subst hy0; subst h1; decide)
  exact ⟨h.1, h.2.1⟩

/-! ### Allocation-aware layer model for the aliasing claim

To state object (non-)aliasing of the `Pixel` objects inside a layer, this
second model of layer.py keeps each pixel's Python object identity as an
allocation tag `pid`.  `Layer.__init__` allocates one fresh `Pixel` per grid
cell (ids in the order of the two nested loops); `Layer.upscale` builds its
result with `Layer(new_size, None, self.name)` — fresh pixels throughout —
and then only assigns their `rgb` fields, so the result's pixel identities
are exactly the constructor's. -/

/-- A pixel object: its identity tag and its `rgb` value. -/
structure PixelObj where
  pid : Nat
  rgb : Pixel
deriving DecidableEq

/-- A layer whose grid remembers pixel object identities. -/
structure LayerA where
  name : String
  visible : Bool
  size : Nat × Nat
  pixels : List (List PixelObj)
deriving DecidableEq

/-- `Layer.__init__` in the allocation-aware model: cell `(i, j)` receives
the `(i * size.2 + j)`-th pixel allocated after `ctr`. -/
def LayerA.init (ctr : Nat) (size : Nat × Nat) (bg : Pixel) (name : String) : LayerA :=
  { name := name, visible := true, size := size,
    pixels := (List.range size.1).map fun i =>
      (List.range size.2).map fun j => { pid := ctr + (i * size.2 + j), rgb := bg } }

/-- `Layer.get_pixel` in the allocation-aware model. -/
def LayerA.get_pixel (l : LayerA) (loc : Nat × Nat) : PixelObj :=
  (l.pixels.getD loc.1 []).getD loc.2 { pid := 0, rgb := none }

/-- The pixel object identities present in a layer. -/
def LayerA.pids (l : LayerA) : List Nat :=
  l.pixels.flatten.map PixelObj.pid

/-- `Layer.upscale` in the allocation-aware model: the grid of the fresh
`Layer(new_size, None, self.name)` (visibility then copied), each fresh cell
`(i, j)` assigned the `rgb` of source cell `(i / 2, j / 2)`. -/
def LayerA.upscale (l : LayerA) (ctr : Nat) : LayerA :=
  { name := l.name, visible := l.visible,
    size := (l.size.1 * 2, l.size.2 * 2),
    pixels := (List.range (l.size.1 * 2)).map fun i =>
      (List.range (l.size.2 * 2)).map fun j =>
        { pid := ctr + (i * (l.size.2 * 2) + j),
          rgb := (l.get_pixel (i / 2, j / 2)).rgb } }

theorem layerA_upscale_get (l : LayerA) (ctr : Nat) (i j : Nat)
    (hi : i < l.size.1 * 2) (hj : j < l.size.2 * 2) :
    (l.upscale ctr).get_pixel (i, j) =
      { pid := ctr + (i * (l.size.2 * 2) + j), rgb := (l.get_pixel (i / 2, j / 2)).rgb } :=
  getD_rangeMap _ (l.size.1 * 2) (l.size.2 * 2) _ i j hi hj

/-- C6: `Layer.upscale` returns a new layer of doubled size with the same
name and visibility, in which, for every source coordinate `(x, y)`, each of
the four destination cells `(2x, 2y)`, `(2x+1, 2y)`, `(2x, 2y+1)`,
`(2x+1, 2y+1)` holds the colour of source pixel `(x, y)` in four pixel
objects that are pairwise distinct and distinct from every pixel object of
the source layer (so the source layer is untouched by the construction). -/
theorem layer_upscale_fresh_copies (l : LayerA) (ctr : Nat)
    (hfresh : ∀ p ∈ l.pids, p < ctr) :
    (l.upscale ctr).size = (l.size.1 * 2, l.size.2 * 2) ∧
    (l.upscale ctr).name = l.name ∧
    (l.upscale ctr).visible = l.visible ∧
    ∀ x y, x < l.size.1 → y < l.size.2 →
      (((l.upscale ctr).get_pixel (2 * x, 2 * y)).rgb = (l.get_pixel (x, y)).rgb ∧
       ((l.upscale ctr).get_pixel (2 * x + 1, 2 * y)).rgb = (l.get_pixel (x, y)).rgb ∧
       ((l.upscale ctr).get_pixel (2 * x, 2 * y + 1)).rgb = (l.get_pixel (x, y)).rgb ∧
       ((l.upscale ctr).get_pixel (2 * x + 1, 2 * y + 1)).rgb = (l.get_pixel (x, y)).rgb) ∧
      (((l.upscale ctr).get_pixel (2 * x, 2 * y)).pid ≠
         ((l.upscale ctr).get_pixel (2 * x + 1, 2 * y)).pid ∧
       ((l.upscale ctr).get_pixel (2 * x, 2 * y)).pid ≠
         ((l.upscale ctr).get_pixel (2 * x, 2 * y + 1)).pid ∧
       ((l.upscale ctr).get_pixel (2 * x, 2 * y)).pid ≠
         ((l.upscale ctr).get_pixel (2 * x + 1, 2 * y + 1)).pid ∧
       ((l.upscale ctr).get_pixel (2 * x + 1, 2 * y)).pid ≠
         ((l.upscale ctr).get_pixel (2 * x, 2 * y + 1)).pid ∧
       ((l.upscale ctr).get_pixel (2 * x + 1, 2 * y)).pid ≠
         ((l.upscale ctr).get_pixel (2 * x + 1, 2 * y + 1)).pid ∧
       ((l.upscale ctr).get_pixel (2 * x, 2 * y + 1)).pid ≠
         ((l.upscale ctr).get_pixel (2 * x + 1, 2 * y + 1)).pid) ∧
      (∀ p ∈ l.pids,
        p ≠ ((l.upscale ctr).get_pixel (2 * x, 2 * y)).pid ∧
        p ≠ ((l.upscale ctr).get_pixel (2 * x + 1, 2 * y)).pid ∧
        p ≠ ((l.upscale ctr).get_pixel (2 * x, 2 * y + 1)).pid ∧
        p ≠ ((l.upscale ctr).get_pixel (2 * x + 1, 2 * y + 1)).pid) := by
  refine ⟨rfl, rfl, rfl, ?_⟩
  intro x y hx hy
  have g1 := layerA_upscale_get l ctr (2 * x) (2 * y) (by omega) (by omega)
  have g2 := layerA_upscale_get l ctr (2 * x + 1) (2 * y) (by omega) (by omega)
  have g3 := layerA_upscale_get l ctr (2 * x) (2 * y + 1) (by omega) (by omega)
  have g4 := layerA_upscale_get l ctr (2 * x + 1) (2 * y + 1) (by omega) (by omega)
  have e1 : (2 * x) / 2 = x := by omega
  have e2 : (2 * x + 1) / 2 = x := by omega
  have e3 : (2 * y) / 2 = y := by omega
  have e4 : (2 * y + 1) / 2 = y := by omega
  refine ⟨⟨?_, ?_, ?_, ?_⟩, ?_, ?_⟩
  · rw [g1, e1, e3]
  · rw [g2, e2, e3]
  · rw [g3, e1, e4]
  · rw [g4, e2, e4]
  · rw [g1, g2, g3, g4]
    have hy2 : 2 * y + 1 < l.size.2 * 2 := by omega
    have hM : (2 * x + 1) * (l.size.2 * 2) = 2 * x * (l.size.2 * 2) + l.size.2 * 2 := by
      ring
    dsimp only
    refine ⟨?_, ?_, ?_, ?_, ?_, ?_⟩ <;> omega
  · intro p hp
    have hlt := hfresh p hp
    rw [g1, g2, g3, g4]
    dsimp only
    refine ⟨?_, ?_, ?_, ?_⟩ <;> omega

/-- Witness for C6 on a 1×1 coloured layer: the upscaled 2×2 block carries
the source colour and its top two pixel objects are distinct. -/
theorem layer_upscale_fresh_copies_witness :
    (((LayerA.init 0 (1, 1) (some (1, 2, 3)) "A").upscale 1).get_pixel (0, 0)).rgb =
      some (1, 2, 3) ∧
    (((LayerA.init 0 (1, 1) (some (1, 2, 3)) "A").upscale 1).get_pixel (0, 0)).pid ≠
      (((LayerA.init 0 (1, 1) (some (1, 2, 3)) "A").upscale 1).get_pixel (1, 0)).pid := by
  have h := (layer_upscale_fresh_copies (LayerA.init 0 (1, 1) (some (1, 2, 3)) "A") 1
    (by decide)).2.2.2 0 0 (by decide) (by decide)
  exact ⟨h.1.1.trans (by decide), h.2.1.1⟩

/-- C9 (amended): `Layer.__init__` performs no validation and never fails;
for valid arguments (nonempty name, both dimensions at least 1) it allocates
a `size.1 × size.2` grid in which every pixel holds the given background
colour (transparent when none is given), and sets the visibility flag to
true. -/
theorem layer_init_valid_spec (oid : Nat) (size : Nat × Nat) (bg : Pixel) (name : String)
    (hname : name ≠ "") (hw : 1 ≤ size.1) (hh : 1 ≤ size.2) :
    (Layer.init oid size bg name).visible = true ∧
    (Layer.init oid size bg name).name = name ∧
    (Layer.init oid size bg name).size = size ∧
    (Layer.init oid size bg name).pixels.length = size.1 ∧
    (∀ col ∈ (Layer.init oid size bg name).pixels, col.length = size.2) ∧
    (∀ x y, x < size.1 → y < size.2 → (Layer.init oid size bg name).get_pixel (x, y) = bg) := by
  refine ⟨rfl, rfl, rfl, ?_, ?_, ?_⟩
  · show ((List.range size.1).map _).length = size.1
    rw [List.length_map, List.length_range]
  · intro col hcol
    obtain ⟨i, _, rfl⟩ := List.mem_map.mp hcol
    rw [List.length_map, List.length_range]
  · intro x y hx hy
    exact getD_rangeMap none size.1 size.2 (fun _ _ => bg) x y hx hy

/-- C9 counterexample: construction does not fail on invalid arguments.  With
an empty name (and likewise with a zero dimension) `Layer.__init__` returns
an ordinary fully-built layer — an allocated grid with visibility true —
rather than rejecting the arguments with a distinguishable error. -/
theorem layer_init_no_validation :
    Layer.init 0 (2, 2) none "" =
      { id := 0, name := "", visible := true, size := (2, 2),
        pixels := [[none, none], [none, none]] } ∧
    Layer.init 1 (0, 3) none "L" =
      { id := 1, name := "L", visible := true, size := (0, 3), pixels := [] } := by
  constructor <;> rfl

/-- Witness for C9 at a concrete valid construction. -/
theorem layer_init_valid_spec_witness :
    ("A" : String) ≠ "" ∧
    (Layer.init 5 (2, 3) (some (9, 8, 7)) "A").visible = true ∧
    (Layer.init 5 (2, 3) (some (9, 8, 7)) "A").get_pixel (1, 2) = some (9, 8, 7) := by
  have h := layer_init_valid_spec 5 (2, 3) (some (9, 8, 7)) "A"
    (by decide) (by decide) (by decide)
  exact ⟨by decide, h.1, h.2.2.2.2.2 1 2 (by decide) (by decide)⟩

/-- C10: every canvas accepted by `load_canvas` comes back with
`active_layer_index = 0`, regardless of the active index of the canvas that
produced the file; indeed `Canvas.save` does not read the active index at
all, so it is not represented in the `.canvas` format. -/
theorem load_canvas_active_spec :
    (∀ (lines : List (List Char)) (fresh : Nat) (c : Canvas),
       load_canvas fresh lines = some c → c.active_layer_index = 0) ∧
    (∀ (c : Canvas) (a : Int),
       Canvas.save { c with active_layer_index := a } = c.save) := by
  constructor
  · intro lines fresh c h
    unfold load_canvas at h
    dsimp only at h
    rcases hparts : pySplit ',' (pyStrip (pyReadline lines).1) with _ | ⟨ws, rest1⟩
    · rw [hparts] at h; exact absurd h (by simp)
    rcases rest1 with _ | ⟨hs, rest2⟩
    · rw [hparts] at h; exact absurd h (by simp)
    rcases rest2 with _ | ⟨ns, rest3⟩
    · rw [hparts] at h; exact absurd h (by simp)
    rcases rest3 with _ | ⟨x, rest4⟩
    swap
    · rw [hparts] at h; exact absurd h (by simp)
    rw [hparts] at h
    dsimp only at h
    rcases hw : pyInt ws with _ | w
    · rw [hw] at h; simp at h
    rcases hh : pyInt hs with _ | hv
    · rw [hw, hh] at h; simp at h
    rcases hn : pyInt ns with _ | nv
    · rw [hw, hh, hn] at h; simp at h
    rw [hw, hh, hn] at h
    simp only [Option.bind_eq_bind, Option.some_bind] at h
    rcases hl : loadLayersLoop (w.toNat, hv.toNat) fresh nv.toNat
        (Canvas.init (w.toNat, hv.toNat)) (pyReadline lines).2 with _ | cl
    · rw [hl] at h; simp at h
    rw [hl] at h
    simp only [Option.bind_eq_bind, Option.some_bind] at h
    have h2 := Option.some.inj h
    rw [← h2]
  · intro c a
    rfl

/-- Witness for C10 on a concrete one-layer file. -/
theorem load_canvas_active_spec_witness :
    load_canvas 0 ["1, 1, 1".data, "True".data, "None".data] =
      some { size := (1, 1), active_layer_index := 0,
             layers := [{ id := 0, name := "Layer", visible := true, size := (1, 1),
                          pixels := [[none]] }] } ∧
    ({ size := (1, 1), active_layer_index := 0,
       layers := [{ id := 0, name := "Layer", visible := true, size := (1, 1),
                    pixels := [[none]] }] } : Canvas).active_layer_index = 0 := by
  refine ⟨by decide, ?_⟩
  exact load_canvas_active_spec.1 ["1, 1, 1".data, "True".data, "None".data] 0 _ (by decide)

/-! ### Round-trip lemmas for the `.canvas` serializer -/

theorem digitChar_toNat (d : Nat) (h : d < 10) : (digitChar d).toNat = 48 + d := by
  interval_cases d <;> decide

theorem isDigitChar_digitChar (d : Nat) (h : d < 10) : isDigitChar (digitChar d) = true := by
  interval_cases d <;> decide

theorem isPySpace_of_digit (c : Char) (h : isDigitChar c = true) : isPySpace c = false := by
  simp only [isDigitChar, Bool.and_eq_true, decide_eq_true_eq] at h
  simp only [isPySpace, Bool.or_eq_false_iff, decide_eq_false_iff_not]
  omega

theorem digit_toNat_range (c : Char) (h : isDigitChar c = true) :
    48 ≤ c.toNat ∧ c.toNat ≤ 57 := by
  simpa only [isDigitChar, Bool.and_eq_true, decide_eq_true_eq] using h

theorem natDigits_all_digits (n : Nat) : ∀ c ∈ natDigits n, isDigitChar c = true := by
  induction n using Nat.strong_induction_on with
  | _ n ih =>
    unfold natDigits
    split
    · rename_i h
      intro c hc
      rw [List.mem_singleton.mp hc]
      exact isDigitChar_digitChar n h
    · rename_i h
      intro c hc
      rcases List.mem_append.mp hc with h1 | h1
      · exact ih (n / 10) (Nat.div_lt_self (by omega) (by omega)) c h1
      · rw [List.mem_singleton.mp h1]
        exact isDigitChar_digitChar (n % 10) (Nat.mod_lt _ (by omega))

theorem natDigits_ne_nil (n : Nat) : natDigits n ≠ [] := by
  unfold natDigits
  split
  · simp
  · simp

theorem parseDigits_natDigits (n : Nat) : parseDigits (natDigits n) = n := by
  induction n using Nat.strong_induction_on with
  | _ n ih =>
    unfold natDigits
    split
    · rename_i h
      show List.foldl _ 0 [digitChar n] = n
      simp only [List.foldl_cons, List.foldl_nil]
      rw [digitChar_toNat n h]
      omega
    · rename_i h
      show List.foldl _ 0 (natDigits (n / 10) ++ [digitChar (n % 10)]) = n
      rw [List.foldl_append]
      have h1 : List.foldl (fun a c => 10 * a + (c.toNat - 48)) 0 (natDigits (n / 10)) = n / 10 :=
        ih (n / 10) (Nat.div_lt_self (by omega) (by omega))
      rw [h1]
      simp only [List.foldl_cons, List.foldl_nil]
      rw [digitChar_toNat (n % 10) (Nat.mod_lt _ (by omega))]
      omega

theorem dropWhile_id_of_head (p : Char → Bool) (t : List Char)
    (h : ∀ c, t.head? = some c → p c = false) : t.dropWhile p = t := by
  cases t with
  | nil => rfl
  | cons a as =>
    rw [List.dropWhile_cons, if_neg (by rw [h a rfl]; simp)]

theorem stripRight_eq (s : List Char)
    (h2 : ∀ c, s.getLast? = some c → isPySpace c = false) :
    (s.reverse.dropWhile isPySpace).reverse = s := by
  rw [dropWhile_id_of_head _ _ (by rw [List.head?_reverse]; exact h2), List.reverse_reverse]

theorem pyStrip_eq_self (s : List Char)
    (h1 : ∀ c, s.head? = some c → isPySpace c = false)
    (h2 : ∀ c, s.getLast? = some c → isPySpace c = false) : pyStrip s = s := by
  unfold pyStrip
  rw [dropWhile_id_of_head _ _ h1, stripRight_eq s h2]

theorem pyStrip_cons_space (s : List Char)
    (h1 : ∀ c, s.head? = some c → isPySpace c = false)
    (h2 : ∀ c, s.getLast? = some c → isPySpace c = false) : pyStrip (' ' :: s) = s := by
  unfold pyStrip
  rw [List.dropWhile_cons, if_pos (by decide), dropWhile_id_of_head _ _ h1,
    stripRight_eq s h2]

theorem head_digit_of_all (s : List Char) (hne : s ≠ [])
    (hd : ∀ c ∈ s, isDigitChar c = true) :
    ∀ c, s.head? = some c → isPySpace c = false := by
  intro c hc
  cases s with
  | nil => exact absurd rfl hne
  | cons a as =>
    rw [show c = a from (Option.some.inj hc).symm]
    exact isPySpace_of_digit a (hd a (List.mem_cons_self a as))

theorem last_digit_of_all (s : List Char) (hd : ∀ c ∈ s, isDigitChar c = true) :
    ∀ c, s.getLast? = some c → isPySpace c = false := by
  intro c hc
  exact isPySpace_of_digit c (hd c (List.mem_of_getLast?_eq_some hc))

theorem parseUnsigned_digits (s : List Char) (hne : s ≠ [])
    (hd : ∀ c ∈ s, isDigitChar c = true) : parseUnsigned s = some (parseDigits s) := by
  unfold parseUnsigned
  rw [if_neg (by simpa using hne), if_pos (by rw [List.all_eq_true]; exact hd)]

theorem pyInt_of_digit_strip (s t : List Char) (hstrip : pyStrip s = t) (hne : t ≠ [])
    (hd : ∀ c ∈ t, isDigitChar c = true) :
    pyInt s = some ((parseDigits t : Nat) : Int) := by
  unfold pyInt
  rw [hstrip]
  obtain ⟨c, cs, rfl⟩ := List.exists_cons_of_ne_nil hne
  have hc : isDigitChar c = true := hd c (List.mem_cons_self c cs)
  have hr := digit_toNat_range c hc
  have hcm : c ≠ '-' := by
    intro he; rw [he] at hr; revert hr; decide
  have hcp : c ≠ '+' := by
    intro he; rw [he] at hr; revert hr; decide
  dsimp only
  rw [if_neg hcm, if_neg hcp, parseUnsigned_digits _ (by simp) hd]
  rfl

theorem pyInt_natDigits (n : Nat) : pyInt (natDigits n) = some ((n : Nat) : Int) := by
  have h := pyInt_of_digit_strip (natDigits n) (natDigits n)
    (pyStrip_eq_self _ (head_digit_of_all _ (natDigits_ne_nil n) (natDigits_all_digits n))
      (last_digit_of_all _ (natDigits_all_digits n)))
    (natDigits_ne_nil n) (natDigits_all_digits n)
  rw [h, parseDigits_natDigits]

theorem pyInt_space_natDigits (n : Nat) :
    pyInt (' ' :: natDigits n) = some ((n : Nat) : Int) := by
  have h := pyInt_of_digit_strip (' ' :: natDigits n) (natDigits n)
    (pyStrip_cons_space _
      (head_digit_of_all _ (natDigits_ne_nil n) (natDigits_all_digits n))
      (last_digit_of_all _ (natDigits_all_digits n)))
    (natDigits_ne_nil n) (natDigits_all_digits n)
  rw [h, parseDigits_natDigits]

theorem pySplit_not_mem (sep : Char) (t : List Char) (h : sep ∉ t) :
    pySplit sep t = [t] := by
  induction t with
  | nil => rfl
  | cons c cs ih =>
    have hc : c ≠ sep := fun he => h (he ▸ List.mem_cons_self c cs)
    have hcs : sep ∉ cs := fun hm => h (List.mem_cons_of_mem c hm)
    simp only [pySplit]
    rw [if_neg hc, ih hcs]

theorem pySplit_sep_append (sep : Char) (t rest : List Char) (h : sep ∉ t) :
    pySplit sep (t ++ sep :: rest) = t :: pySplit sep rest := by
  induction t with
  | nil =>
    simp only [List.nil_append, pySplit, if_pos]
  | cons c cs ih =>
    have hc : c ≠ sep := fun he => h (he ▸ List.mem_cons_self c cs)
    have hcs : sep ∉ cs := fun hm => h (List.mem_cons_of_mem c hm)
    simp only [List.cons_append, pySplit, List.append_eq]
    rw [if_neg hc, ih hcs]

theorem pyJoin_head? (sep : Char) (t : List Char) (ts : List (List Char)) (ht : t ≠ []) :
    (pyJoin sep (t :: ts)).head? = t.head? := by
  obtain ⟨c, cs, rfl⟩ := List.exists_cons_of_ne_nil ht
  cases ts with
  | nil => rfl
  | cons t2 ts2 => rfl

theorem getLast?_append_ne_nil (A B : List Char) (hB : B ≠ []) :
    (A ++ B).getLast? = B.getLast? := by
  rw [List.getLast?_append]
  cases hB' : B.getLast? with
  | none => exact absurd (List.getLast?_eq_none_iff.mp hB') hB
  | some c => rfl

theorem getLast?_ne_nil_cons (a : Char) (l : List Char) (hl : l ≠ []) :
    (a :: l).getLast? = l.getLast? := by
  obtain ⟨b, bs, rfl⟩ := List.exists_cons_of_ne_nil hl
  exact List.getLast?_cons_cons

theorem pyJoin_getLast? (sep : Char) (ts : List (List Char)) (t : List Char) (ht : t ≠ []) :
    (pyJoin sep (ts ++ [t])).getLast? = t.getLast? := by
  induction ts with
  | nil => rfl
  | cons u us ih =>
    cases us with
    | nil =>
      show (u ++ sep :: pyJoin sep [t]).getLast? = t.getLast?
      rw [getLast?_append_ne_nil _ _ (by simp), getLast?_ne_nil_cons _ _ (by simpa using ht)]
      rfl
    | cons v vs =>
      show (u ++ sep :: pyJoin sep ((v :: vs) ++ [t])).getLast? = t.getLast?
      have hne : pyJoin sep ((v :: vs) ++ [t]) ≠ [] := by
        intro hnil
        rw [hnil] at ih
        simp only [List.getLast?_nil] at ih
        exact ht (List.getLast?_eq_none_iff.mp ih.symm)
      rw [getLast?_append_ne_nil _ _ (by simp), getLast?_ne_nil_cons _ _ hne]
      exact ih

/-- The channels of a pixel are nonnegative (a consequence of
`is_valid_rgb_colour`, and all the serializer needs). -/
def pixelNonneg (p : Pixel) : Prop :=
  match p with
  | none => True
  | some (r, g, b) => 0 ≤ r ∧ 0 ≤ g ∧ 0 ≤ b

theorem pixelNonneg_of_valid (p : Pixel) (h : p.all is_valid_rgb_colour = true) :
    pixelNonneg p := by
  cases p with
  | none => trivial
  | some v =>
    obtain ⟨r, g, b⟩ := v
    simp only [Option.all_some, is_valid_rgb_colour, Bool.and_eq_true,
      decide_eq_true_eq] at h
    exact ⟨h.1.1.1.1.1, h.1.1.1.2, h.1.2⟩

theorem intRepr_nonneg (n : Int) (h : 0 ≤ n) : intRepr n = natDigits n.toNat := by
  unfold intRepr
  rw [if_neg (by omega)]

theorem pixelToken_colour (r g b : Int) (hr : 0 ≤ r) (hg : 0 ≤ g) (hb : 0 ≤ b) :
    pixelToken (some (r, g, b)) =
      '(' :: (natDigits r.toNat ++ ',' :: ' ' :: (natDigits g.toNat ++ ',' :: ' '
        :: (natDigits b.toNat ++ [')']))) := by
  show '(' :: (intRepr r ++ ',' :: ' ' :: intRepr g ++ ',' :: ' ' :: intRepr b ++ [')']) = _
  rw [intRepr_nonneg r hr, intRepr_nonneg g hg, intRepr_nonneg b hb]
  simp [List.append_assoc]

theorem pixelToken_mem (p : Pixel) (hp : pixelNonneg p) (c : Char) (hc : c ∈ pixelToken p) :
    isDigitChar c = true ∨ c ∈ ['(', ')', ',', ' ', 'N', 'o', 'n', 'e'] := by
  cases p with
  | none =>
    have h : c = 'N' ∨ c = 'o' ∨ c = 'n' ∨ c = 'e' := by simpa [pixelToken] using hc
    right
    rcases h with h | h | h | h <;> simp [h]
  | some v =>
    obtain ⟨r, g, b⟩ := v
    obtain ⟨hr, hg, hb⟩ := hp
    rw [pixelToken_colour r g b hr hg hb] at hc
    simp only [List.mem_cons, List.mem_append, List.mem_singleton,
      List.mem_nil_iff, or_false] at hc
    rcases hc with h | h | h | h | h | h | h | h | h
    · right; simp [h]
    · exact Or.inl (natDigits_all_digits _ c h)
    · right; simp [h]
    · right; simp [h]
    · exact Or.inl (natDigits_all_digits _ c h)
    · right; simp [h]
    · right; simp [h]
    · exact Or.inl (natDigits_all_digits _ c h)
    · right; simp [h]

theorem bar_not_mem_pixelToken (p : Pixel) (hp : pixelNonneg p) : '|' ∉ pixelToken p := by
  intro h
  rcases pixelToken_mem p hp '|' h with hd | hmem
  · have := digit_toNat_range _ hd
    revert this
    decide
  · revert hmem
    decide

theorem comma_not_mem_natDigits (n : Nat) : ',' ∉ natDigits n := by
  intro h
  have := digit_toNat_range ',' (natDigits_all_digits n ',' h)
  revert this
  decide

theorem pixelToken_ne_nil (p : Pixel) : pixelToken p ≠ [] := by
  cases p with
  | none => simp [pixelToken]
  | some v =>
    obtain ⟨r, g, b⟩ := v
    simp [pixelToken]

theorem pixelToken_head_not_space (p : Pixel) :
    ∀ c, (pixelToken p).head? = some c → isPySpace c = false := by
  intro c hc
  cases p with
  | none =>
    cases Option.some.inj hc
    decide
  | some v =>
    obtain ⟨r, g, b⟩ := v
    cases Option.some.inj hc
    decide

theorem pixelToken_last_not_space (p : Pixel) (hp : pixelNonneg p) :
    ∀ c, (pixelToken p).getLast? = some c → isPySpace c = false := by
  intro c hc
  cases p with
  | none =>
    rw [show pixelToken none = "None".data from rfl] at hc
    rw [show (("None".data : List Char).getLast?) = some 'e' from by decide] at hc
    cases Option.some.inj hc
    decide
  | some v =>
    obtain ⟨r, g, b⟩ := v
    obtain ⟨hr, hg, hb⟩ := hp
    rw [pixelToken_colour r g b hr hg hb] at hc
    have hlast : ('(' :: (natDigits r.toNat ++ ',' :: ' ' :: (natDigits g.toNat ++ ',' :: ' '
        :: (natDigits b.toNat ++ [')'])))).getLast? = some ')' := by
      rw [getLast?_ne_nil_cons _ _ (by simp),
        getLast?_append_ne_nil _ _ (by simp),
        getLast?_ne_nil_cons _ _ (by simp), getLast?_ne_nil_cons _ _ (by simp),
        getLast?_append_ne_nil _ _ (by simp),
        getLast?_ne_nil_cons _ _ (by simp), getLast?_ne_nil_cons _ _ (by simp),
        getLast?_append_ne_nil _ _ (by simp)]
      rfl
    rw [hlast] at hc
    cases Option.some.inj hc
    decide

/-- Reading back the token written for a pixel recovers the pixel exactly. -/
theorem readPixelToken_pixelToken (p : Pixel) (hp : pixelNonneg p) :
    readPixelToken (pixelToken p) = some p := by
  cases p with
  | none => decide
  | some v =>
    obtain ⟨r, g, b⟩ := v
    obtain ⟨hr, hg, hb⟩ := hp
    rw [pixelToken_colour r g b hr hg hb]
    unfold readPixelToken
    rw [if_neg (by
      intro hEq
      exact absurd (List.cons.inj hEq).1 (by decide))]
    have hl : pyLStrip '(' ('(' :: (natDigits r.toNat ++ ',' :: ' '
        :: (natDigits g.toNat ++ ',' :: ' ' :: (natDigits b.toNat ++ [')'])))) =
        natDigits r.toNat ++ ',' :: ' ' :: (natDigits g.toNat ++ ',' :: ' '
          :: (natDigits b.toNat ++ [')'])) := by
      unfold pyLStrip
      rw [List.dropWhile_cons, if_pos (by decide)]
      apply dropWhile_id_of_head
      intro c hc
      obtain ⟨d, ds, hd⟩ := List.exists_cons_of_ne_nil (natDigits_ne_nil r.toNat)
      rw [hd, List.cons_append, List.head?_cons] at hc
      cases Option.some.inj hc
      have hdig : isDigitChar c = true :=
        natDigits_all_digits _ c (hd ▸ List.mem_cons_self _ _)
      have hrange := digit_toNat_range c hdig
      simp only [decide_eq_false_iff_not]
      intro he
      rw [he] at hrange
      revert hrange
      decide
    rw [hl]
    have hassoc : natDigits r.toNat ++ ',' :: ' ' :: (natDigits g.toNat ++ ',' :: ' '
        :: (natDigits b.toNat ++ [')'])) =
        (natDigits r.toNat ++ ',' :: ' ' :: (natDigits g.toNat ++ ',' :: ' '
          :: natDigits b.toNat)) ++ [')'] := by
      simp [List.append_assoc]
    rw [hassoc]
    have hrs : pyRStrip ')' ((natDigits r.toNat ++ ',' :: ' ' :: (natDigits g.toNat
        ++ ',' :: ' ' :: natDigits b.toNat)) ++ [')']) =
        natDigits r.toNat ++ ',' :: ' ' :: (natDigits g.toNat ++ ',' :: ' '
          :: natDigits b.toNat) := by
      unfold pyRStrip
      rw [List.reverse_append, List.reverse_cons, List.reverse_nil, List.nil_append,
        List.singleton_append, List.dropWhile_cons, if_pos (by decide)]
      rw [dropWhile_id_of_head _ _ ?hh, List.reverse_reverse]
      case hh =>
        intro c hc
        rw [List.head?_reverse] at hc
        have hlast : (natDigits r.toNat ++ ',' :: ' ' :: (natDigits g.toNat ++ ',' :: ' '
            :: natDigits b.toNat)).getLast? = (natDigits b.toNat).getLast? := by
          rw [getLast?_append_ne_nil _ _ (by simp),
            getLast?_ne_nil_cons _ _ (by simp), getLast?_ne_nil_cons _ _ (by simp),
            getLast?_append_ne_nil _ _ (by simp),
            getLast?_ne_nil_cons _ _ (by simp),
            getLast?_ne_nil_cons _ _ (natDigits_ne_nil b.toNat)]
        rw [hlast] at hc
        have hdig : isDigitChar c = true :=
          natDigits_all_digits _ c (List.mem_of_getLast?_eq_some hc)
        have := digit_toNat_range c hdig
        simp only [decide_eq_false_iff_not]
        intro he
        rw [he] at this
        revert this
        decide
    rw [hrs]
    have hsplit : pySplit ',' (natDigits r.toNat ++ ',' :: ' ' :: (natDigits g.toNat
        ++ ',' :: ' ' :: natDigits b.toNat)) =
        [natDigits r.toNat, ' ' :: natDigits g.toNat, ' ' :: natDigits b.toNat] := by
      rw [pySplit_sep_append ',' _ _ (comma_not_mem_natDigits r.toNat)]
      have h2 : (' ' :: (natDigits g.toNat ++ ',' :: ' ' :: natDigits b.toNat)) =
          (' ' :: natDigits g.toNat) ++ ',' :: (' ' :: natDigits b.toNat) := by
        simp
      rw [h2, pySplit_sep_append ',' _ _ (by
        intro hm
        rcases List.mem_cons.mp hm with h | h
        · revert h; decide
        · exact comma_not_mem_natDigits g.toNat h)]
      rw [pySplit_not_mem ',' _ (by
        intro hm
        rcases List.mem_cons.mp hm with h | h
        · revert h; decide
        · exact comma_not_mem_natDigits b.toNat h)]
    rw [hsplit]
    dsimp only
    rw [pyInt_natDigits, pyInt_space_natDigits, pyInt_space_natDigits]
    simp only [Option.bind_eq_bind, Option.some_bind, Option.some.injEq, Option.pure_def]
    rw [Int.toNat_of_nonneg hr, Int.toNat_of_nonneg hg, Int.toNat_of_nonneg hb]

/-- Shape of a `_pixels` grid: `w` columns, each of height `h`. -/
def gridWF (w h : Nat) (g : List (List Pixel)) : Prop :=
  g.length = w ∧ ∀ col ∈ g, col.length = h

/-- Read a grid cell the way `get_pixel` does. -/
def gridGet (g : List (List Pixel)) (col row : Nat) : Pixel :=
  (g.getD col []).getD row none

theorem gridGet_eq_getElem (g : List (List Pixel)) (col row : Nat)
    (hcol : col < g.length) (hrow : row < g[col].length) :
    gridGet g col row = g[col][row] := by
  unfold gridGet
  simp only [List.getD_eq_getElem?_getD]
  rw [List.getElem?_eq_getElem hcol, Option.getD_some,
    List.getElem?_eq_getElem hrow, Option.getD_some]

theorem grid_ext (w h : Nat) (g1 g2 : List (List Pixel))
    (h1 : gridWF w h g1) (h2 : gridWF w h g2)
    (he : ∀ col row, col < w → row < h → gridGet g1 col row = gridGet g2 col row) :
    g1 = g2 := by
  apply List.ext_getElem (by rw [h1.1, h2.1])
  intro i hi1 hi2
  have hl1 : g1.length = w := h1.1
  have hc1 : g1[i].length = h := h1.2 _ (g1.getElem_mem hi1)
  have hc2 : g2[i].length = h := h2.2 _ (g2.getElem_mem hi2)
  apply List.ext_getElem (by rw [hc1, hc2])
  intro j hj1 hj2
  have := he i j (by omega) (by omega)
  rwa [gridGet_eq_getElem g1 i j hi1 hj1, gridGet_eq_getElem g2 i j hi2 hj2] at this

theorem gridWF_setPix (w h : Nat) (g : List (List Pixel)) (hwf : gridWF w h g)
    (col row : Nat) (v : Pixel) (hcol : col < w) :
    gridWF w h (setPix g col row v) := by
  constructor
  · rw [setPix, List.length_set]; exact hwf.1
  · intro c hc
    rcases List.mem_or_eq_of_mem_set hc with hm | hm
    · exact hwf.2 c hm
    · subst hm
      rw [List.length_set]
      have hcl : col < g.length := by rw [hwf.1]; exact hcol
      simp only [List.getD_eq_getElem?_getD]
      rw [List.getElem?_eq_getElem hcl, Option.getD_some]
      exact hwf.2 _ (g.getElem_mem hcl)

theorem gridGet_setPix_same (w h : Nat) (g : List (List Pixel)) (hwf : gridWF w h g)
    (col row : Nat) (v : Pixel) (hcol : col < w) (hrow : row < h) :
    gridGet (setPix g col row v) col row = v := by
  unfold gridGet setPix
  have hcl : col < g.length := by rw [hwf.1]; exact hcol
  have hcd : g[col]?.getD [] = g[col] := by
    rw [List.getElem?_eq_getElem hcl, Option.getD_some]
  have hrl : row < g[col].length := by
    rw [hwf.2 _ (g.getElem_mem hcl)]; exact hrow
  simp only [List.getD_eq_getElem?_getD]
  rw [List.getElem?_set_self (by simpa using hcl), Option.getD_some, hcd,
    List.getElem?_set_self (by simpa using hrl), Option.getD_some]

theorem gridGet_setPix_other (g : List (List Pixel)) (col row : Nat) (v : Pixel)
    (col' row' : Nat) (h : col' ≠ col ∨ row' ≠ row) :
    gridGet (setPix g col row v) col' row' = gridGet g col' row' := by
  unfold gridGet setPix
  rcases eq_or_ne col' col with rfl | hne
  · have hrow : row' ≠ row := h.resolve_left (fun hh => hh rfl)
    by_cases hcl : col' < g.length
    · have hcd : g[col']?.getD [] = g[col'] := by
        rw [List.getElem?_eq_getElem hcl, Option.getD_some]
      simp only [List.getD_eq_getElem?_getD]
      rw [List.getElem?_set_self (by simpa using hcl), Option.getD_some, hcd,
        List.getElem?_set_ne (fun hh => hrow hh.symm)]
    · rw [List.set_eq_of_length_le (by omega)]
  · simp only [List.getD_eq_getElem?_getD]
    rw [List.getElem?_set_ne (fun hh => hne hh.symm)]

theorem setRowPixels_spec (w h row : Nat) (hrow : row < h) :
    ∀ (vs : List Pixel) (col0 : Nat) (g : List (List Pixel)),
      gridWF w h g → (∀ v ∈ vs, pixelNonneg v) → col0 + vs.length ≤ w →
      ∃ g', setRowPixels w row (vs.map pixelToken) col0 g = some g' ∧
        gridWF w h g' ∧
        (∀ col' row', row' ≠ row ∨ col' < col0 ∨ col0 + vs.length ≤ col' →
          gridGet g' col' row' = gridGet g col' row') ∧
        (∀ k, (hk : k < vs.length) → gridGet g' (col0 + k) row = vs[k]) := by
  intro vs
  induction vs with
  | nil =>
    intro col0 g hwf _ _
    exact ⟨g, rfl, hwf, fun _ _ _ => rfl, fun k hk => absurd hk (by simp)⟩
  | cons v vs ih =>
    intro col0 g hwf hv hle
    have hcol0 : col0 < w := by
      have := hle
      simp only [List.length_cons] at this
      omega
    obtain ⟨g', hrun, hwf', hother, hset⟩ :=
      ih (col0 + 1) (setPix g col0 row v)
        (gridWF_setPix w h g hwf col0 row v hcol0)
        (fun u hu => hv u (List.mem_cons_of_mem v hu))
        (by simp only [List.length_cons] at hle; omega)
    refine ⟨g', ?_, hwf', ?_, ?_⟩
    · show setRowPixels w row (pixelToken v :: vs.map pixelToken) col0 g = some g'
      unfold setRowPixels
      rw [readPixelToken_pixelToken v (hv v (List.mem_cons_self v vs))]
      dsimp only
      rw [if_pos hcol0]
      exact hrun
    · intro col' row' hcond
      rw [hother col' row' (by
        rcases hcond with h1 | h1 | h1
        · exact Or.inl h1
        · exact Or.inr (Or.inl (by omega))
        · exact Or.inr (Or.inr (by simp only [List.length_cons] at h1 ⊢; omega)))]
      apply gridGet_setPix_other
      rcases hcond with h1 | h1 | h1
      · exact Or.inr h1
      · exact Or.inl (by omega)
      · exact Or.inl (by simp only [List.length_cons] at h1; omega)
    · intro k hk
      cases k with
      | zero =>
        rw [show col0 + 0 = col0 from rfl]
        rw [hother col0 row (Or.inr (Or.inl (by omega)))]
        rw [gridGet_setPix_same w h g hwf col0 row v hcol0 hrow]
        rfl
      | succ j =>
        have hj : j < vs.length := by simpa using hk
        have := hset j hj
        rw [show col0 + (j + 1) = col0 + 1 + j from by omega]
        rw [this]
        rfl

theorem pySplit_pyJoin (sep : Char) (ts : List (List Char)) (hne : ts ≠ [])
    (h : ∀ t ∈ ts, sep ∉ t) : pySplit sep (pyJoin sep ts) = ts := by
  induction ts with
  | nil => exact absurd rfl hne
  | cons t ts' ih =>
    cases ts' with
    | nil =>
      show pySplit sep (pyJoin sep [t]) = [t]
      exact pySplit_not_mem sep t (h t (List.mem_cons_self t []))
    | cons u us =>
      show pySplit sep (t ++ sep :: pyJoin sep (u :: us)) = t :: u :: us
      rw [pySplit_sep_append sep t _ (h t (List.mem_cons_self t (u :: us))),
        ih (by simp) (fun t' ht' => h t' (List.mem_cons_of_mem t ht'))]

theorem pyStrip_join_tokens (ts : List (List Char)) (hne : ts ≠ [])
    (hall : ∀ t ∈ ts, t ≠ [] ∧ (∀ c, t.head? = some c → isPySpace c = false) ∧
      (∀ c, t.getLast? = some c → isPySpace c = false)) :
    pyStrip (pyJoin '|' ts) = pyJoin '|' ts := by
  obtain ⟨t0, ts', rfl⟩ := List.exists_cons_of_ne_nil hne
  apply pyStrip_eq_self
  · intro c hc
    rw [pyJoin_head? '|' t0 ts' (hall t0 (List.mem_cons_self t0 ts')).1] at hc
    exact (hall t0 (List.mem_cons_self t0 ts')).2.1 c hc
  · intro c hc
    have hlast := List.dropLast_concat_getLast (l := t0 :: ts') (by simp)
    have hmem : (t0 :: ts').getLast (by simp) ∈ t0 :: ts' := List.getLast_mem _
    rw [← hlast, pyJoin_getLast? '|' _ _ (hall _ hmem).1] at hc
    exact (hall _ hmem).2.2 c hc

/-- The row loop of `read_layer` reads the lines written by `_write_layer`
back into the grid, row by row. -/
theorem readRows_spec (w h : Nat) (hw : 1 ≤ w) (f : Nat → Nat → Pixel)
    (hf : ∀ x y, x < w → y < h → pixelNonneg (f x y)) :
    ∀ (remaining row : Nat), row + remaining ≤ h →
    ∀ (g : List (List Pixel)), gridWF w h g → ∀ (rest : List (List Char)),
      ∃ g', readRows w row remaining g
          (((List.range' row remaining).map fun y =>
            pyJoin '|' ((List.range w).map fun x => pixelToken (f x y))) ++ rest) =
          some (g', rest) ∧
        gridWF w h g' ∧
        ∀ col row', col < w → row' < h →
          gridGet g' col row' =
            if row ≤ row' ∧ row' < row + remaining then f col row'
            else gridGet g col row' := by
  intro remaining
  induction remaining with
  | zero =>
    intro row _ g hwf rest
    refine ⟨g, rfl, hwf, ?_⟩
    intro col row' _ _
    rw [if_neg (by omega)]
  | succ k ih =>
    intro row hle g hwf rest
    have hrowh : row < h := by omega
    have htsne : ((List.range w).map fun x => pixelToken (f x row)) ≠ [] := by
      intro hnil
      simp only [List.map_eq_nil_iff, List.range_eq_nil] at hnil
      omega
    have hallt : ∀ t ∈ (List.range w).map fun x => pixelToken (f x row),
        t ≠ [] ∧ (∀ c, t.head? = some c → isPySpace c = false) ∧
        (∀ c, t.getLast? = some c → isPySpace c = false) := by
      intro t ht
      obtain ⟨x, hx, rfl⟩ := List.mem_map.mp ht
      have hxw : x < w := List.mem_range.mp hx
      exact ⟨pixelToken_ne_nil _, pixelToken_head_not_space _,
        pixelToken_last_not_space _ (hf x row hxw hrowh)⟩
    have hline := pyStrip_join_tokens _ htsne hallt
    have hsplitline := pySplit_pyJoin '|' _ htsne (by
      intro t ht
      obtain ⟨x, hx, rfl⟩ := List.mem_map.mp ht
      exact bar_not_mem_pixelToken _ (hf x row (List.mem_range.mp hx) hrowh))
    have hvsnn : ∀ v ∈ (List.range w).map fun x => f x row, pixelNonneg v := by
      intro v hv
      obtain ⟨x, hx, rfl⟩ := List.mem_map.mp hv
      exact hf x row (List.mem_range.mp hx) hrowh
    have hvslen : ((List.range w).map fun x => f x row).length = w := by
      rw [List.length_map, List.length_range]
    obtain ⟨g1, hrun, hwf1, hother, hset⟩ :=
      setRowPixels_spec w h row hrowh ((List.range w).map fun x => f x row) 0 g hwf
        hvsnn (by rw [hvslen]; omega)
    obtain ⟨g', hrun', hwf', hcells'⟩ := ih (row + 1) (by omega) g1 hwf1 rest
    have hts2 : ((List.range w).map fun x => pixelToken (f x row)) =
        ((List.range w).map fun x => f x row).map pixelToken := by
      rw [List.map_map]
      rfl
    have hrun2 : setRowPixels w row ((List.range w).map fun x => pixelToken (f x row)) 0 g =
        some g1 := by
      rw [hts2]
      exact hrun
    refine ⟨g', ?_, hwf', ?_⟩
    · rw [List.range'_succ]
      simp only [List.map_cons, List.cons_append]
      simp only [readRows, pyReadline]
      rw [hline, hsplitline, hrun2]
      exact hrun'
    · intro col row' hcol hrow'
      rw [hcells' col row' hcol hrow']
      by_cases h1 : row + 1 ≤ row' ∧ row' < row + 1 + k
      · rw [if_pos h1, if_pos (by omega)]
      · rw [if_neg h1]
        by_cases h2 : row' = row
        · subst h2
          rw [if_pos (by omega)]
          have hcvs : col < (List.map (fun x => f x row') (List.range w)).length := by
            rw [hvslen]
            exact hcol
          have hcell := hset col hcvs
          rw [show (0 : Nat) + col = col from by omega] at hcell
          rw [hcell, List.getElem_map, List.getElem_range]
        · rw [if_neg (by omega)]
          exact hother col row' (Or.inl h2)

theorem boolRepr_roundtrip (b : Bool) :
    (decide (pyStrip (boolRepr b) = "True".data)) = b := by
  cases b <;> decide

theorem initGrid_WF (w h : Nat) (bg : Pixel) :
    gridWF w h ((List.range w).map fun _ => (List.range h).map fun _ => bg) := by
  constructor
  · rw [List.length_map, List.length_range]
  · intro col hcol
    obtain ⟨i, _, rfl⟩ := List.mem_map.mp hcol
    rw [List.length_map, List.length_range]

/-- `read_layer` on a blank layer of the right size reads the lines written
by `_write_layer` back into an identical grid and visibility flag. -/
theorem read_layer_roundtrip (w h : Nat) (hw : 1 ≤ w) (oid : Nat) (l : Layer)
    (hshape : gridWF w h l.pixels)
    (hnn : ∀ x y, x < w → y < h → pixelNonneg (l.get_pixel (x, y)))
    (rest : List (List Char)) :
    (Layer.init oid (w, h) none "Layer").read_layer
      ((boolRepr l.visible :: (List.range h).map fun y =>
        pyJoin '|' ((List.range w).map fun x => pixelToken (l.get_pixel (x, y)))) ++ rest) =
      some ({ id := oid, name := "Layer", visible := l.visible, size := (w, h),
              pixels := l.pixels }, rest) := by
  obtain ⟨g', hrun, hwfg', hcells⟩ := readRows_spec w h hw (fun x y => l.get_pixel (x, y))
    (fun x y hx hy => hnn x y hx hy) h 0 (by omega)
    ((List.range w).map fun _ => (List.range h).map fun _ => none)
    (initGrid_WF w h none) rest
  rw [show List.range' 0 h = List.range h from (List.range_eq_range' h).symm] at hrun
  have hg : g' = l.pixels := by
    apply grid_ext w h g' l.pixels hwfg' hshape
    intro col row hcol hrow
    rw [hcells col row hcol hrow, if_pos (by omega)]
    rfl
  unfold Layer.read_layer
  simp only [List.cons_append, pyReadline]
  rw [show (Layer.init oid (w, h) none "Layer").size.1 = w from rfl,
    show (Layer.init oid (w, h) none "Layer").size.2 = h from rfl,
    show (Layer.init oid (w, h) none "Layer").pixels =
      ((List.range w).map fun _ => (List.range h).map fun _ => none) from rfl]
  rw [hrun]
  rw [hg] at hrun ⊢
  rw [boolRepr_roundtrip l.visible]
  rfl

/-- The layer loop of `load_canvas` reads back the concatenated layer blocks
written by `save`, appending the recovered layers in order. -/
theorem loadLayersLoop_spec (w h : Nat) (hw : 1 ≤ w) (fresh : Nat) :
    ∀ (ls : List Layer) (acc : Canvas) (rest : List (List Char)),
      (∀ l ∈ ls, gridWF w h l.pixels ∧
        ∀ x y, x < w → y < h → pixelNonneg (l.get_pixel (x, y))) →
      ∃ c', loadLayersLoop (w, h) fresh ls.length acc
          ((ls.map fun l => boolRepr l.visible :: (List.range h).map fun y =>
            pyJoin '|' ((List.range w).map fun x => pixelToken (l.get_pixel (x, y)))).flatten
            ++ rest) = some (c', rest) ∧
        c'.size = acc.size ∧
        c'.layers.length = acc.layers.length + ls.length ∧
        (∀ k, k < acc.layers.length → c'.layers[k]? = acc.layers[k]?) ∧
        (∀ k, (hk : k < ls.length) →
          c'.layers[acc.layers.length + k]?.map Layer.visible = some ls[k].visible ∧
          c'.layers[acc.layers.length + k]?.map Layer.pixels = some ls[k].pixels ∧
          c'.layers[acc.layers.length + k]?.map Layer.size = some (w, h)) := by
  intro ls
  induction ls with
  | nil =>
    intro acc rest _
    exact ⟨acc, rfl, rfl, by simp, fun k _ => rfl, fun k hk => absurd hk (by simp)⟩
  | cons l ls ih =>
    intro acc rest hall
    have hread := read_layer_roundtrip w h hw (fresh + acc.layers.length) l
      (hall l (List.mem_cons_self l ls)).1 (hall l (List.mem_cons_self l ls)).2
      (((ls.map fun l => boolRepr l.visible :: (List.range h).map fun y =>
        pyJoin '|' ((List.range w).map fun x => pixelToken (l.get_pixel (x, y)))).flatten)
        ++ rest)
    obtain ⟨c', hc', hsz, hlen, hpre, hnew⟩ :=
      ih (acc.add_layer
        { id := fresh + acc.layers.length, name := "Layer", visible := l.visible,
          size := (w, h), pixels := l.pixels }) rest
        (fun l' hl' => hall l' (List.mem_cons_of_mem l hl'))
    refine ⟨c', ?_, ?_, ?_, ?_, ?_⟩
    · show loadLayersLoop (w, h) fresh (ls.length + 1) acc _ = some (c', rest)
      simp only [loadLayersLoop, List.map_cons, List.flatten_cons, List.append_assoc]
      rw [hread]
      exact hc'
    · exact hsz
    · rw [hlen]
      show _ = acc.layers.length + (ls.length + 1)
      have hone : (acc.add_layer
          (⟨fresh + acc.layers.length, "Layer", l.visible, (w, h), l.pixels⟩ :
            Layer)).layers.length = acc.layers.length + 1 := by
        show (acc.layers ++
          [(⟨fresh + acc.layers.length, "Layer", l.visible, (w, h), l.pixels⟩ :
            Layer)]).length = _
        rw [List.length_append, List.length_singleton]
      rw [hone]
      omega
    · intro k hk
      rw [hpre k (by
        show k < (acc.layers ++
          [(⟨fresh + acc.layers.length, "Layer", l.visible, (w, h), l.pixels⟩ :
            Layer)]).length
        rw [List.length_append, List.length_singleton]
        omega)]
      show (acc.layers ++
        [(⟨fresh + acc.layers.length, "Layer", l.visible, (w, h), l.pixels⟩ :
          Layer)])[k]? = _
      exact List.getElem?_append_left hk
    · intro k hk
      cases k with
      | zero =>
        have h1 := hpre acc.layers.length (by
          show acc.layers.length < (acc.layers ++
            [(⟨fresh + acc.layers.length, "Layer", l.visible, (w, h), l.pixels⟩ :
              Layer)]).length
          rw [List.length_append, List.length_singleton]
          omega)
        have h3 : (acc.add_layer
            ⟨fresh + acc.layers.length, "Layer", l.visible, (w, h), l.pixels⟩).layers[
              acc.layers.length]? =
            some (⟨fresh + acc.layers.length, "Layer", l.visible, (w, h), l.pixels⟩ : Layer) := by
          show (acc.layers ++
            [(⟨fresh + acc.layers.length, "Layer", l.visible, (w, h), l.pixels⟩ :
              Layer)])[acc.layers.length]? = _
          exact List.getElem?_concat_length _ _
        rw [show acc.layers.length + 0 = acc.layers.length from by omega, h1, h3]
        exact ⟨rfl, rfl, rfl⟩
      | succ j =>
        have hj : j < ls.length := by simpa using hk
        have h2 := hnew j hj
        have hidx : (acc.add_layer
            { id := fresh + acc.layers.length, name := "Layer", visible := l.visible,
              size := (w, h), pixels := l.pixels }).layers.length + j =
            acc.layers.length + (j + 1) := by
          show (acc.layers ++
            [(⟨fresh + acc.layers.length, "Layer", l.visible, (w, h), l.pixels⟩ :
              Layer)]).length + j = _
          rw [List.length_append, List.length_singleton]
          omega
        rw [hidx] at h2
        exact h2

theorem intRepr_natCast (n : Nat) : intRepr ((n : Nat) : Int) = natDigits n := by
  rw [intRepr_nonneg _ (Int.natCast_nonneg n), Int.toNat_natCast]

/-- The header line written by `save` strips to itself and splits on commas
into the three numeral fields. -/
theorem header_fields (w h n : Nat) :
    pySplit ','
        (pyStrip (natDigits w ++ ',' :: ' ' :: natDigits h ++ ',' :: ' ' :: natDigits n)) =
      [natDigits w, ' ' :: natDigits h, ' ' :: natDigits n] := by
  rw [show (natDigits w ++ ',' :: ' ' :: natDigits h ++ ',' :: ' ' :: natDigits n
        : List Char) =
      natDigits w ++ ',' :: ' ' :: (natDigits h ++ ',' :: ' ' :: natDigits n) from by simp]
  rw [pyStrip_eq_self]
  · rw [pySplit_sep_append ',' _ _ (comma_not_mem_natDigits w)]
    rw [show (' ' :: (natDigits h ++ ',' :: ' ' :: natDigits n)) =
        (' ' :: natDigits h) ++ ',' :: (' ' :: natDigits n) from by simp]
    rw [pySplit_sep_append ',' _ _ (by
      intro hm
      rcases List.mem_cons.mp hm with he | hm2
      · exact absurd he.symm (by decide)
      · exact comma_not_mem_natDigits h hm2)]
    rw [pySplit_not_mem ',' _ (by
      intro hm
      rcases List.mem_cons.mp hm with he | hm2
      · exact absurd he.symm (by decide)
      · exact comma_not_mem_natDigits n hm2)]
  · intro ch hc
    obtain ⟨a, as, he⟩ := List.exists_cons_of_ne_nil (natDigits_ne_nil w)
    rw [he] at hc
    simp only [List.cons_append, List.head?_cons] at hc
    rw [show ch = a from (Option.some.inj hc).symm]
    exact isPySpace_of_digit a (natDigits_all_digits w a (he ▸ List.mem_cons_self a as))
  · intro ch hc
    rw [getLast?_append_ne_nil _ _ (by simp),
      getLast?_ne_nil_cons _ _ (by simp),
      getLast?_ne_nil_cons _ _ (by simp),
      getLast?_append_ne_nil _ _ (by simp),
      getLast?_ne_nil_cons _ _ (by simp),
      getLast?_ne_nil_cons _ _ (natDigits_ne_nil n)] at hc
    exact isPySpace_of_digit ch (natDigits_all_digits n ch (List.mem_of_getLast?_eq_some hc))

/-- A well-formed canvas in the sense of the round-trip claim: positive width,
and every layer sized to the canvas with a well-shaped pixel grid all of whose
non-transparent pixels hold valid RGB triples. -/
def CanvasWF (c : Canvas) : Prop :=
  1 ≤ c.size.1 ∧
  ∀ l ∈ c.layers, l.size = c.size ∧ gridWF c.size.1 c.size.2 l.pixels ∧
    ∀ x < c.size.1, ∀ y < c.size.2,
      (l.get_pixel (x, y)).all is_valid_rgb_colour = true

instance (w h : Nat) (g : List (List Pixel)) : Decidable (gridWF w h g) := by
  unfold gridWF
  infer_instance

instance (c : Canvas) : Decidable (CanvasWF c) := by
  unfold CanvasWF
  infer_instance

/-- C1: serializing a well-formed canvas with `save` to the `.canvas` format
and deserializing with `load_canvas` reconstructs a structurally equal canvas:
same size, same layer count, and, layer by layer in the same top-to-bottom
order, the same visibility flag and the same optional RGB triple at every
pixel coordinate. -/
theorem save_load_roundtrip (fresh : Nat) (c : Canvas) (hwf : CanvasWF c) :
    ∃ c', load_canvas fresh c.save = some c' ∧
      c'.size = c.size ∧
      c'.layers.length = c.layers.length ∧
      ∀ k, (hk : k < c.layers.length) →
        ∃ l', c'.layers[k]? = some l' ∧
          l'.visible = c.layers[k].visible ∧
          l'.size = c.size ∧
          l'.pixels = c.layers[k].pixels ∧
          ∀ x y, l'.get_pixel (x, y) = c.layers[k].get_pixel (x, y) := by
  obtain ⟨hw, hlayers⟩ := hwf
  obtain ⟨cl, hloop, hsz, hlen, _, hnew⟩ :=
    loadLayersLoop_spec c.size.1 c.size.2 hw fresh c.layers
      (Canvas.init (c.size.1, c.size.2)) []
      (fun l hl => ⟨(hlayers l hl).2.1, fun x y hx hy =>
        pixelNonneg_of_valid _ ((hlayers l hl).2.2 x hx y hy)⟩)
  rw [List.append_nil] at hloop
  have hacc : (Canvas.init (c.size.1, c.size.2)).layers.length = 0 := rfl
  refine ⟨{ cl with active_layer_index := 0 }, ?_, ?_, ?_, ?_⟩
  · show load_canvas fresh c.save = _
    unfold load_canvas Canvas.save
    dsimp only [pyReadline]
    rw [intRepr_natCast, intRepr_natCast, intRepr_natCast, header_fields]
    dsimp only
    simp only [pyInt_natDigits, pyInt_space_natDigits, Option.bind_eq_bind,
      Option.some_bind, Int.toNat_natCast]
    rw [show List.map c.write_layer c.layers =
        List.map (fun l => boolRepr l.visible :: (List.range c.size.2).map fun y =>
          pyJoin '|' ((List.range c.size.1).map fun x => pixelToken (l.get_pixel (x, y))))
          c.layers from rfl]
    rw [hloop]
    rfl
  · show cl.size = c.size
    rw [hsz]
    exact Prod.mk.eta
  · show cl.layers.length = c.layers.length
    rw [hlen, hacc]
    omega
  · intro k hk
    have h2 := hnew k hk
    rw [hacc, Nat.zero_add] at h2
    rcases hget : cl.layers[k]? with _ | l'
    · rw [hget] at h2
      exact absurd h2.1 (by simp)
    · rw [hget] at h2
      simp only [Option.map_some', Option.some.injEq] at h2
      have hpix : l'.pixels = c.layers[k].pixels := h2.2.1
      refine ⟨l', rfl, h2.1, ?_, hpix, ?_⟩
      · rw [h2.2.2]
      · intro x y
        unfold Layer.get_pixel
        rw [hpix]

/-- Witness for C1 on a concrete one-layer 1×1 canvas. -/
theorem save_load_roundtrip_witness :
    CanvasWF { size := (1, 1), active_layer_index := 0,
               layers := [{ id := 3, name := "L", visible := true, size := (1, 1),
                            pixels := [[some (10, 20, 30)]] }] } ∧
    (∃ c', load_canvas 7 (Canvas.save
        { size := (1, 1), active_layer_index := 0,
          layers := [{ id := 3, name := "L", visible := true, size := (1, 1),
                       pixels := [[some (10, 20, 30)]] }] }) = some c' ∧
      c'.size = (1, 1) ∧
      c'.layers.length = 1 ∧
      ∀ k, (hk : k < 1) →
        ∃ l', c'.layers[k]? = some l' ∧
          l'.visible = ([{ id := 3, name := "L", visible := true, size := (1, 1),
                           pixels := [[some (10, 20, 30)]] }] : List Layer)[k].visible ∧
          l'.size = (1, 1) ∧
          l'.pixels = ([{ id := 3, name := "L", visible := true, size := (1, 1),
                          pixels := [[some (10, 20, 30)]] }] : List Layer)[k].pixels ∧
          ∀ x y, l'.get_pixel (x, y) =
            (([{ id := 3, name := "L", visible := true, size := (1, 1),
                 pixels := [[some (10, 20, 30)]] }] : List Layer)[k]).get_pixel (x, y)) :=
  ⟨by decide, save_load_roundtrip 7 _ (by decide)⟩

end PixelArt
